import Mathlib

/-! TSL277x ambient-light / proximity driver (`drivers/staging/iio/light/tsl2771.c`)

A shallow embedding of the arithmetic and bookkeeping parts of the driver.
C machine integers are unbounded `Nat` / `Int` values with the 32-bit (or
16-bit, 8-bit) reduction written out where the C code performs it.
-/

namespace Tsl2771

/-! ## Machine integers -/

/-- Value of a C expression converted to `u8`. -/
def toU8 (x : Int) : Nat := (x % 256).toNat

/-- Value of a C expression converted to `u16`. -/
def toU16 (x : Int) : Nat := (x % 65536).toNat

/-- Value of a C expression converted to `u32` / `unsigned int` / `unsigned long`
(the target is 32-bit ARM). -/
def toU32 (x : Int) : Nat := (x % 4294967296).toNat

/-- Value of a C expression converted to `int` (two's complement, 32 bit). -/
def toS32 (x : Int) : Int := (x + 2147483648) % 4294967296 - 2147483648

/-- Arithmetic on `unsigned long`: reduction modulo `2^32`. -/
def wrapU32 (x : Nat) : Nat := x % 4294967296

/-! ## `taos_isqrt` -/

/-- The first loop of `taos_isqrt`: `while (one > op) one >>= 2;`.
`fuel` bounds the number of iterations. -/
def taos_isqrt_scale : Nat → Nat → Nat → Nat
  | 0, one, _ => one
  | fuel + 1, one, op =>
    if one > op then taos_isqrt_scale fuel (one >>> 2) op else one

/-- The second loop of `taos_isqrt`:
`while (one != 0) { if (op >= res + one) { op -= res + one; res += one << 1; }
res >>= 1; one >>= 2; }`, on `unsigned long` values. -/
def taos_isqrt_loop : Nat → Nat → Nat → Nat → Nat
  | 0, _, res, _ => res
  | fuel + 1, op, res, one =>
    if one ≠ 0 then
      if op ≥ wrapU32 (res + one) then
        taos_isqrt_loop fuel (wrapU32 (op + 4294967296 - wrapU32 (res + one)))
          (wrapU32 (res + wrapU32 (one <<< 1)) >>> 1) (one >>> 2)
      else
        taos_isqrt_loop fuel op (res >>> 1) (one >>> 2)
    else res

/-- `unsigned long taos_isqrt(unsigned long x)`.  `one` starts at `1 << 30` and is
shifted right by two bits per iteration, so both loops end within 17 rounds. -/
def taos_isqrt (x : Nat) : Nat :=
  taos_isqrt_loop 17 x 0 (taos_isqrt_scale 17 (1 <<< 30) x)

/-! ## Constants and data model -/

def TSL277X_CHIP_UNKNOWN : Int := 0
def TSL277X_CHIP_WORKING : Int := 1
def TSL277X_CHIP_SUSPENDED : Int := 2

def TSL277X_LUX_CALC_OVER_FLOW : Nat := 65535
def TSL277X_STA_ADC_VALID : Nat := 0x01
def TSL277X_CNTL_ADC_ENBL : Nat := 0x02
def TSL277X_CNTL_PWR_ON : Nat := 0x01
def CNTL_PROX_INT_ENBL : Nat := 0x20
def CNTL_ADC_ENBL : Nat := 0x02
def CNTL_PROX_DET_ENBL : Nat := 0x04
def CONSECUTIVE_RETRIES : Nat := 50
def MAX_SAMPLES_CAL : Nat := 200

def EINVAL : Int := 22
def EBUSY : Int := 16
def ERANGE : Int := 34
def ENODATA : Int := 61

/-- `struct taos_als_info`: three `u16` fields. -/
structure taos_als_info where
  als_ch0 : Nat
  als_ch1 : Nat
  lux : Nat
  deriving DecidableEq, Repr

/-- `struct taos_prox_info`: `u16 prox_data; int prox_event`. -/
structure taos_prox_info where
  prox_data : Nat
  prox_event : Int
  deriving DecidableEq, Repr

/-- `struct prox_stat`: `u16 min, max, mean; unsigned long stddev`. -/
structure prox_stat where
  min : Nat
  max : Nat
  mean : Nat
  stddev : Nat
  deriving DecidableEq, Repr

/-- `struct taos_settings`: every field is an `int` except the two `u8` fields
`als_interrupt` and `als_persistence`. -/
structure taos_settings where
  als_time : Int
  als_gain : Int
  als_gain_trim : Int
  als_cal_target : Int
  als_interrupt : Nat
  als_persistence : Nat
  als_thresh_low : Int
  als_thresh_high : Int
  prox_thres : Int
  prox_pulse_count : Int
  prox_max_samples_cal : Int
  deriving DecidableEq, Repr

/-- `struct tsl2771_chip`, without the kernel handles.  The two mutex fields record
whether the mutex is held by somebody else when the driver function runs, i.e.
whether `mutex_trylock` fails. -/
structure tsl2771_chip where
  prox_mutex_locked : Bool
  als_mutex_locked : Bool
  prox_cur_info : taos_prox_info
  als_cur_info : taos_als_info
  taos_settings : taos_settings
  als_time_scale : Int
  als_saturation : Int
  taos_chip_status : Int
  taos_config : List Nat
  init_done : Bool
  deriving DecidableEq, Repr

/-- `struct taos_lux`: three `unsigned int` fields. -/
structure taos_lux where
  ratio : Nat
  ch0 : Nat
  ch1 : Nat
  deriving DecidableEq, Repr

/-- `struct gainadj`: two `s16` fields. -/
structure gainadj where
  ch0 : Int
  ch1 : Int
  deriving DecidableEq, Repr

/-- The initial contents of the global `taos_device_lux[11]`. -/
def taos_device_lux : List taos_lux :=
  [⟨14461, 611, 1211⟩, ⟨18540, 352, 623⟩, ⟨0, 0, 0⟩] ++ List.replicate 8 ⟨0, 0, 0⟩

/-- The constant table `tsl2771_gainadj[]`. -/
def tsl2771_gainadj : List gainadj :=
  [⟨1, 1⟩, ⟨8, 8⟩, ⟨16, 16⟩, ⟨120, 120⟩]

/-! ## I2C

The results of the SMBus calls made by one driver function are given by a
stream `bus : Nat → Int`: `bus k` is what the `k`-th call returns. -/

/-- The stream that remains after `k` SMBus calls. -/
def busAfter (bus : Nat → Int) (k : Nat) : Nat → Int := fun i => bus (i + k)

/-- `taos_i2c_read(client, reg, val, len)`: per byte one `i2c_smbus_write_byte`
(a negative result is returned at once) and one `i2c_smbus_read_byte`, whose
result is stored in a `u8`.  Returns the status and the bytes stored. -/
def taos_i2c_read (bus : Nat → Int) : Nat → Int × List Nat
  | 0 => (0, [])
  | len + 1 =>
    if bus 0 < 0 then (bus 0, [])
    else
      let r := taos_i2c_read (busAfter bus 2) len
      (r.1, toU8 (bus 1) :: r.2)

/-! ## `taos_get_lux` -/

/-- The table scan of `taos_get_lux`:
`for (p = taos_device_lux; p->ratio != 0 && p->ratio < ratio; p++);`.
Running past the end of the array has no defined result. -/
def taos_lux_scan (ratio : Nat) : List taos_lux → Option taos_lux
  | [] => none
  | p :: rest =>
    if p.ratio ≠ 0 ∧ p.ratio < ratio then taos_lux_scan ratio rest else some p

/-- `tsl2771_gainadj[chip->taos_settings.als_gain]`; an index outside the table
has no defined result. -/
def gainadj_at (als_gain : Int) : Option gainadj :=
  if als_gain < 0 then none else tsl2771_gainadj[als_gain.toNat]?

/-- The tail of `taos_get_lux` from `lux = ch0lux - ch1lux` on, after the
`ch1lux > ch0lux` test: time scale, `>> 8`, gain trim, overflow clamp.
All arithmetic is `u32`. -/
def taos_lux_scale (lux : Nat) (als_time_scale als_gain_trim : Int) : Nat :=
  let lux1 := if als_time_scale = 0 then 0
    else wrapU32 (lux + toU32 (als_time_scale >>> (1 : Nat))) / toU32 als_time_scale
  let lux2 := lux1 >>> 8
  let lux3 := wrapU32 (wrapU32 (lux2 * toU32 als_gain_trim) + 500) / 1000
  if lux3 > TSL277X_LUX_CALC_OVER_FLOW then TSL277X_LUX_CALC_OVER_FLOW else lux3

/-- Store of a new lux value: `chip->als_cur_info.lux = lux` (a `u16` field). -/
def set_lux (chip : tsl2771_chip) (lux : Nat) : tsl2771_chip :=
  { chip with als_cur_info := { chip.als_cur_info with lux := toU16 lux } }

/-- The part of `taos_get_lux` after the channel data has been read:
`ch0`, `ch1` are the two little-endian 16-bit readings. -/
def taos_get_lux_calc (tbl : List taos_lux) (chip : tsl2771_chip) (ch0 ch1 : Nat) :
    Option (Int × tsl2771_chip) :=
  let chip1 : tsl2771_chip :=
    { chip with als_cur_info := { chip.als_cur_info with als_ch0 := ch0, als_ch1 := ch1 } }
  if (ch0 : Int) ≥ chip1.als_saturation ∨ (ch1 : Int) ≥ chip1.als_saturation then
    -- goto return_max
    some ((TSL277X_LUX_CALC_OVER_FLOW : Int), set_lux chip1 TSL277X_LUX_CALC_OVER_FLOW)
  else if ch0 = 0 then
    some (0, set_lux chip1 0)
  else
    let ratio := (ch1 <<< 15) / ch0
    match taos_lux_scan ratio tbl with
    | none => none
    | some p =>
      let lx : Option (Nat × Nat) :=
        if p.ratio = 0 then some (0, 0)
        else
          match gainadj_at chip1.taos_settings.als_gain with
          | none => none
          | some g =>
            some (wrapU32 (wrapU32 (ch0 * p.ch0) + toU32 (g.ch0 >>> (1 : Nat))) / toU32 g.ch0,
                  wrapU32 (wrapU32 (ch1 * p.ch1) + toU32 (g.ch1 >>> (1 : Nat))) / toU32 g.ch1)
      match lx with
      | none => none
      | some (ch0lux, ch1lux) =>
        if ch1lux > ch0lux then
          some (0, set_lux chip1 0)
        else
          let lux := taos_lux_scale (wrapU32 (ch0lux + 4294967296 - ch1lux))
            chip1.als_time_scale chip1.taos_settings.als_gain_trim
          some ((lux : Int), set_lux chip1 lux)

/-- `static int taos_get_lux(struct i2c_client *client)`.  SMBus calls, in order:
status (write, read), four channel bytes (write, read each), interrupt clear
(write).  The result is the return value and the chip state afterwards; `none`
when the C code has no defined result. -/
def taos_get_lux (tbl : List taos_lux) (chip : tsl2771_chip) (bus : Nat → Int) :
    Option (Int × tsl2771_chip) :=
  if chip.als_mutex_locked then
    some ((chip.als_cur_info.lux : Int), chip)
  else if chip.taos_chip_status ≠ TSL277X_CHIP_WORKING then
    some (-EBUSY, chip)
  else
    let s := taos_i2c_read bus 1
    if s.1 < 0 then some (s.1, chip)
    else if s.2.getD 0 0 &&& TSL277X_STA_ADC_VALID = 0 then
      some ((chip.als_cur_info.lux : Int), chip)
    else
      let r0 := taos_i2c_read (busAfter bus 2) 1
      if r0.1 < 0 then some (r0.1, chip) else
      let r1 := taos_i2c_read (busAfter bus 4) 1
      if r1.1 < 0 then some (r1.1, chip) else
      let r2 := taos_i2c_read (busAfter bus 6) 1
      if r2.1 < 0 then some (r2.1, chip) else
      let r3 := taos_i2c_read (busAfter bus 8) 1
      if r3.1 < 0 then some (r3.1, chip) else
      let ret := bus 10
      if ret < 0 then some (ret, chip)
      else
        let ch0 := r0.2.getD 0 0 + 256 * r1.2.getD 0 0
        let ch1 := r2.2.getD 0 0 + 256 * r3.2.getD 0 0
        taos_get_lux_calc tbl chip ch0 ch1

/-- The unscaled count of the specification's lux formula, over the integers:
`(((ch0*c0 + g/2)/g - (ch1*c1 + g/2)/g + ts/2) / ts) / 256`. -/
def lux_counts (ch0 ch1 c0 c1 g ts : Int) : Int :=
  (((ch0 * c0 + g / 2) / g - (ch1 * c1 + g / 2) / g + ts / 2) / ts) / 256

/-- The value the specification gives for the lux reading on the normal path,
over the integers:
`min(65535, ((((ch0*c0 + g/2)/g - (ch1*c1 + g/2)/g + ts/2) / ts) / 256 * t + 500) / 1000)`. -/
def lux_formula (ch0 ch1 c0 c1 g ts t : Int) : Int :=
  min 65535 ((lux_counts ch0 ch1 c0 c1 g ts * t + 500) / 1000)

/-! ## `taos_prox_poll` -/

/-- The data phase of `taos_prox_poll`: two `taos_i2c_read` calls for the low and
the high byte, then the store of `prox_data` and `prox_event`. -/
def taos_prox_poll_data (chip : tsl2771_chip) (bus : Nat → Int) : Int × tsl2771_chip :=
  let r0 := taos_i2c_read bus 1
  if r0.1 < 0 then (r0.1, chip) else
  let r1 := taos_i2c_read (busAfter bus 2) 1
  if r1.1 < 0 then (r1.1, chip) else
  let prox_data := toU16 (((r1.2.getD 0 0 <<< 8) ||| r0.2.getD 0 0 : Nat) : Int)
  let prox_event : Int := if (prox_data : Int) ≥ chip.taos_settings.prox_thres then 1 else 0
  (prox_event, { chip with prox_cur_info := ⟨prox_data, prox_event⟩ })

/-- The `tryAgain:` loop of `taos_prox_poll`.  `left` is
`CONSECUTIVE_RETRIES - err_cnt`: the retry is abandoned when `err_cnt`, once
incremented, exceeds `CONSECUTIVE_RETRIES`. -/
def taos_prox_poll_try (chip : tsl2771_chip) : Nat → (Nat → Int) → Int × tsl2771_chip
  | left, bus =>
    let s := taos_i2c_read bus 1
    if s.1 < 0 then (s.1, chip)
    else if ((chip.taos_settings.als_interrupt <<< 4) &&& CNTL_PROX_INT_ENBL ≠ 0) ∧
        (s.2.getD 0 0 &&& TSL277X_STA_ADC_VALID = 0) then
      match left with
      | 0 => (chip.prox_cur_info.prox_event, chip)
      | l + 1 => taos_prox_poll_try chip l (busAfter bus 2)
    else taos_prox_poll_data chip (busAfter bus 2)

/-- `int taos_prox_poll(struct i2c_client *client)`. -/
def taos_prox_poll (chip : tsl2771_chip) (bus : Nat → Int) : Int × tsl2771_chip :=
  if chip.prox_mutex_locked then (-1, chip)
  else taos_prox_poll_try chip CONSECUTIVE_RETRIES bus

/-! ## `taos_als_calibrate` -/

/-- `int taos_als_calibrate(struct i2c_client *client)`.  The division by
`lux_val` has no defined result when `lux_val` is 0. -/
def taos_als_calibrate (tbl : List taos_lux) (chip : tsl2771_chip) (bus : Nat → Int) :
    Option (Int × tsl2771_chip) :=
  if bus 0 < 0 then some (bus 0, chip) else
  if toU8 (bus 1) &&& (TSL277X_CNTL_ADC_ENBL ||| TSL277X_CNTL_PWR_ON)
      ≠ (TSL277X_CNTL_ADC_ENBL ||| TSL277X_CNTL_PWR_ON) then some (-1, chip) else
  if bus 2 < 0 then some (bus 2, chip) else
  if toU8 (bus 3) &&& TSL277X_STA_ADC_VALID ≠ TSL277X_STA_ADC_VALID then
    some (-ENODATA, chip) else
  match taos_get_lux tbl chip (busAfter bus 4) with
  | none => none
  | some (lux_val, chip1) =>
    if lux_val < 0 then some (lux_val, chip1)
    else if lux_val = 0 then none
    else
      let gain_trim_val := toU32 (Int.tdiv
        (toS32 (chip1.taos_settings.als_cal_target * chip1.taos_settings.als_gain_trim)) lux_val)
      if gain_trim_val < 250 ∨ gain_trim_val > 4000 then some (-ERANGE, chip1)
      else
        some (toS32 gain_trim_val,
          { chip1 with taos_settings :=
              { chip1.taos_settings with als_gain_trim := toS32 gain_trim_val } })

/-! ## `taos_isqrt` users: `taos_prox_calculate` -/

/-- The first loop of `taos_prox_calculate` after `n` iterations:
`(sum, min, max)`, all `int`. -/
def prox_sum_min_max (data : Nat → Nat) : Nat → Int × Int × Int
  | 0 => (0, 0xffff, 0)
  | n + 1 =>
    let s := prox_sum_min_max data n
    let d : Int := data n
    (toS32 (s.1 + d), (if d < s.2.1 then d else s.2.1), (if d > s.2.2 then d else s.2.2))

/-- The second loop of `taos_prox_calculate` after `n` iterations: the `int`
accumulator `sum` of `tmp * tmp` with `tmp = data[i] - mean`. -/
def prox_sq_sum (data : Nat → Nat) (mean : Int) : Nat → Int
  | 0 => 0
  | n + 1 =>
    let tmp := toS32 ((data n : Int) - mean)
    toS32 (prox_sq_sum data mean n + toS32 (tmp * tmp))

/-- `void taos_prox_calculate(u16 *data, int length, struct prox_stat *statP)`.
`data i` is the `u16` at `data[i]`; the result is `*statP`. -/
def taos_prox_calculate (data : Nat → Nat) (length : Int) : prox_stat :=
  let length := if length = 0 then 1 else length
  let s := prox_sum_min_max data length.toNat
  let mean := Int.tdiv s.1 length
  let sum := prox_sq_sum data mean length.toNat
  { min := toU16 s.2.1
    max := toU16 s.2.2
    mean := toU16 mean
    stddev := taos_isqrt (toU32 sum) / toU32 length }

/-- The integer standard deviation the specification describes:
`floor(sqrt(S / length))` with `S` the sum of `(data[i] - mean)^2` over
`i < length`, `mean = floor(sum / length)`. -/
def stddev_spec (data : Nat → Nat) (length : Nat) : Nat :=
  let mean : Int := (((List.range length).map data).sum : Nat) / (length : Int)
  let S := ((List.range length).map (fun i => ((data i : Int) - mean) ^ 2)).sum
  Nat.sqrt (S.toNat / length)

/-! ## Power sequencing: `taos_chip_off`, `taos_chip_on` -/

/-- `static int taos_chip_off(struct i2c_client *client)`: one SMBus write. -/
def taos_chip_off (chip : tsl2771_chip) (bus : Nat → Int) : Int × tsl2771_chip :=
  (bus 0, { chip with taos_chip_status := TSL277X_CHIP_SUSPENDED })

/-- The register upload loop of `taos_chip_on`: `n` calls of
`i2c_smbus_write_byte_data`, stopping at the first negative result. -/
def taos_write_regs (bus : Nat → Int) : Nat → Option Int
  | 0 => none
  | n + 1 => if bus 0 < 0 then some (bus 0) else taos_write_regs (busAfter bus 1) n

/-- The interrupt set-up at the end of `taos_chip_on` (entered when
`als_interrupt` is non-zero).  `reg_val0` is the indeterminate content of the
local `reg_val`, which is used when the persistence read fails. -/
def taos_chip_on_irq (bus : Nat → Int) (reg_val0 : Nat) : Int :=
  let r := taos_i2c_read bus 1
  let k := if r.1 < 0 then 1 else 2
  let reg_val := if r.1 < 0 then reg_val0 else r.2.getD 0 0
  -- a zero persistence nibble costs one more register write
  let k := if reg_val &&& 0x0F = 0 then k + 1 else k
  -- CNTRL write (result only logged), then the interrupt clear
  bus (k + 1)

/-- `static int taos_chip_on(struct i2c_client *client)`. -/
def taos_chip_on (chip : tsl2771_chip) (bus : Nat → Int) (reg_val0 : Nat) :
    Int × tsl2771_chip :=
  let s := chip.taos_settings
  let cfg := ((((((((chip.taos_config.set 0x04 (toU8 s.als_thresh_low)).set 0x05
    (toU8 (s.als_thresh_low >>> (8 : Nat)))).set 0x06 (toU8 s.als_thresh_high)).set 0x07
    (toU8 (s.als_thresh_high >>> (8 : Nat)))).set 0x0c s.als_persistence).set 0x0E
    (toU8 s.prox_pulse_count)).set 0x08 0).set 0x0A (toU8 s.prox_thres))
  let chip1 := { chip with taos_config := cfg }
  if chip.taos_chip_status = TSL277X_CHIP_WORKING then (-EINVAL, chip1)
  else
    let als_count0 := Int.tdiv (toS32 (toS32 (s.als_time * 100) + 135)) 270
    let als_count := if als_count0 = 0 then 1 else als_count0
    let als_time := Int.tdiv (toS32 (toS32 (als_count * 27) + 5)) 10
    let cfg := (cfg.set 0x01 (toU8 (256 - als_count))).set 0x0f
      (toU8 (Int.lor s.als_gain (Int.lor 0x00 0x30)))
    let chip2 := { chip1 with
      taos_config := cfg
      als_saturation := toS32 (als_count * 922)
      als_time_scale := Int.tdiv (toS32 (als_time + 25)) 50 }
    if bus 0 < 0 then (-1, chip2)
    else
      match taos_write_regs (busAfter bus 1) 16 with
      | some ret => (ret, chip2)
      | none =>
        if bus 17 < 0 then (bus 17, chip2)
        else
          let chip3 := { chip2 with taos_chip_status := TSL277X_CHIP_WORKING, init_done := false }
          if s.als_interrupt ≠ 0 then (taos_chip_on_irq (busAfter bus 18) reg_val0, chip3)
          else (bus 17, chip3)

/-! ## Sysfs: lux table -/

/-- Views a flat array of `unsigned int` words as `struct taos_lux` entries. -/
def lux_of_words : List Nat → List taos_lux
  | a :: b :: c :: rest => ⟨a, b, c⟩ :: lux_of_words rest
  | _ => []

/-- The table after `memset(taos_device_lux, 0, sizeof(taos_device_lux))` and
`memcpy(taos_device_lux, &value[1], value[0] * 4)`: the 33 words of the
11-entry table. -/
def lux_table_copy (value : List Int) (n : Nat) : List taos_lux :=
  let words := ((value.drop 1).take n).map toU32
  lux_of_words (words ++ List.replicate (33 - words.length) 0)

/-- `taos_luxtable_store`, from the point where `get_options` has filled
`value[]` (`value[0]` is the number of integers parsed).  `tbl` is the global
`taos_device_lux`.  An access outside `value` has no defined result.
The result is the return value, the table and the chip state. -/
def taos_luxtable_store (tbl : List taos_lux) (chip : tsl2771_chip) (value : List Int)
    (len : Int) (bus : Nat → Int) (reg_val0 : Nat) :
    Option (Int × List taos_lux × tsl2771_chip) :=
  match value[0]? with
  | none => none
  | some n =>
    if Int.tmod n 3 ≠ 0 ∨ n < 6 ∨ n > (11 - 1) * 3 then some (-EINVAL, tbl, chip)
    else
      match value[(n - 2).toNat]?, value[(n - 1).toNat]?, value[n.toNat]? with
      | some a, some b, some c =>
        if Int.lor (Int.lor a b) c ≠ 0 then some (-EINVAL, tbl, chip)
        else
          let off := if chip.taos_chip_status = TSL277X_CHIP_WORKING
            then ((taos_chip_off chip bus).2, busAfter bus 1) else (chip, bus)
          some (len, lux_table_copy value n.toNat, (taos_chip_on off.1 off.2 reg_val0).2)
      | _, _, _ => none

/-! ## Sysfs: settings

`parsed` is the outcome of `strict_strtoul`: `none` when it reports an error,
otherwise the `unsigned long` value.  `len` is the length of the input, returned
on success. -/

/-- `static void taos_defaults(struct tsl2771_chip *chip)`. -/
def taos_defaults (chip : tsl2771_chip) : tsl2771_chip :=
  { chip with taos_settings :=
    { chip.taos_settings with
      als_time := 200
      als_gain := 0
      als_gain_trim := 1000
      als_cal_target := 130
      als_thresh_low := 3
      als_thresh_high := 256
      als_persistence := 0x13
      als_interrupt := 0x10
      prox_thres := 512
      prox_max_samples_cal := 100
      prox_pulse_count := 10 } }

/-- `taos_als_time_store`. -/
def taos_als_time_store (chip : tsl2771_chip) (parsed : Option Nat) (len : Int) :
    Int × tsl2771_chip :=
  match parsed with
  | none => (-EINVAL, chip)
  | some value =>
    if value < 50 ∨ value > 650 then (-EINVAL, chip)
    else if value % 50 ≠ 0 then (-EINVAL, chip)
    else (len, { chip with taos_settings := { chip.taos_settings with als_time := toS32 value } })

/-- The values listed by `taos_als_time_available_show`. -/
def taos_als_time_available : List Nat :=
  [50, 100, 150, 200, 250, 300, 350, 400, 450, 500, 550, 600, 650]

/-- `taos_gain_show`: the number printed, `tsl2771_gainadj[als_gain].ch0`. -/
def taos_gain_show (chip : tsl2771_chip) : Option Int :=
  (gainadj_at chip.taos_settings.als_gain).map (fun g => g.ch0)

/-- `taos_gain_store`. -/
def taos_gain_store (chip : tsl2771_chip) (parsed : Option Nat) (len : Int) :
    Int × tsl2771_chip :=
  let set_gain (i : Int) : tsl2771_chip :=
    { chip with taos_settings := { chip.taos_settings with als_gain := i } }
  match parsed with
  | none => (-EINVAL, chip)
  | some 1 => (len, set_gain 0)
  | some 8 => (len, set_gain 1)
  | some 16 => (len, set_gain 2)
  | some 111 => (len, set_gain 3)
  | some _ => (-EINVAL, chip)

/-- The values listed by `taos_gain_available_show`. -/
def taos_gain_available : List Nat := [1, 8, 16, 111]

/-- `taos_als_interrupt_show`: the number printed. -/
def taos_als_interrupt_show (chip : tsl2771_chip) : Nat :=
  if chip.taos_settings.als_interrupt &&& 0x10 ≠ 0 then 1 else 0

/-- `taos_prox_interrupt_show`: the number printed. -/
def taos_prox_interrupt_show (chip : tsl2771_chip) : Nat :=
  if chip.taos_settings.als_interrupt &&& 0x20 ≠ 0 then 1 else 0

/-- `taos_als_interrupt_store`. -/
def taos_als_interrupt_store (chip : tsl2771_chip) (parsed : Option Nat) (len : Int) :
    Int × tsl2771_chip :=
  match parsed with
  | none => (-EINVAL, chip)
  | some value =>
    if value > 1 then (-EINVAL, chip)
    else if value ≠ 0 then
      (len, { chip with taos_settings :=
        { chip.taos_settings with als_interrupt := chip.taos_settings.als_interrupt ||| 0x10 } })
    else
      (len, { chip with taos_settings :=
        { chip.taos_settings with als_interrupt := chip.taos_settings.als_interrupt &&& 0x20 } })

/-- `taos_prox_interrupt_store`. -/
def taos_prox_interrupt_store (chip : tsl2771_chip) (parsed : Option Nat) (len : Int) :
    Int × tsl2771_chip :=
  match parsed with
  | none => (-EINVAL, chip)
  | some value =>
    if value > 1 then (-EINVAL, chip)
    else if value ≠ 0 then
      (len, { chip with taos_settings :=
        { chip.taos_settings with als_interrupt := chip.taos_settings.als_interrupt ||| 0x20 } })
    else
      (len, { chip with taos_settings :=
        { chip.taos_settings with als_interrupt := chip.taos_settings.als_interrupt &&& 0x10 } })

/-- `taos_als_cal_target_store`: a non-zero value is stored in the `int` field
`als_cal_target`. -/
def taos_als_cal_target_store (chip : tsl2771_chip) (parsed : Option Nat) (len : Int) :
    Int × tsl2771_chip :=
  match parsed with
  | none => (-EINVAL, chip)
  | some value =>
    if value ≠ 0 then
      (len, { chip with taos_settings :=
        { chip.taos_settings with als_cal_target := toS32 value } })
    else (len, chip)

/-! ## Sample states -/

/-- A chip structure as `kzalloc` leaves it, after `taos_defaults`. -/
def chip_probed : tsl2771_chip :=
  taos_defaults
    { prox_mutex_locked := false
      als_mutex_locked := false
      prox_cur_info := ⟨0, 0⟩
      als_cur_info := ⟨0, 0, 0⟩
      taos_settings := ⟨0, 0, 0, 0, 0, 0, 0, 0, 0, 0, 0⟩
      als_time_scale := 0
      als_saturation := 0
      taos_chip_status := TSL277X_CHIP_UNKNOWN
      taos_config := [0x00, 0xee, 0xFF, 0xF5, 0x03, 0x00, 0x00, 0x01,
                      0x00, 0x00, 0x00, 0x03, 0x30, 0x00, 0x0a, 0x20]
      init_done := false }

/-- The probed chip after a `taos_chip_on` in which every SMBus call returns 0. -/
def chip_powered : tsl2771_chip := (taos_chip_on chip_probed (fun _ => 0) 0).2

/-- SMBus results for one `taos_get_lux`: every write succeeds, the status byte
is `0x11`, channel 0 reads 10000 (`0x2710`) and channel 1 reads 5655 (`0x1617`). -/
def bus_lux_sample : Nat → Int := fun k =>
  [0, 0x11, 0, 0x10, 0, 0x27, 0, 0x17, 0, 0x16, 0].getD k 0

/-- The path of `taos_get_lux` on which a new reading is computed: the mutex is
free, the chip is working, the status read succeeds and reports valid data, the
four channel reads and the interrupt clear succeed. -/
def lux_new_reading (chip : tsl2771_chip) (bus : Nat → Int) : Prop :=
  chip.als_mutex_locked = false ∧ chip.taos_chip_status = TSL277X_CHIP_WORKING ∧
  0 ≤ bus 0 ∧ toU8 (bus 1) &&& TSL277X_STA_ADC_VALID ≠ 0 ∧
  0 ≤ bus 2 ∧ 0 ≤ bus 4 ∧ 0 ≤ bus 6 ∧ 0 ≤ bus 8 ∧ 0 ≤ bus 10

/-- SMBus results for one `taos_get_lux`: every write succeeds, the status byte
is `0x11`, channel 0 reads 1000 (`0x03E8`) and channel 1 reads 100 (`0x0064`). -/
def bus_lux_bright : Nat → Int := fun k =>
  [0, 0x11, 0, 0xE8, 0, 0x03, 0, 0x64, 0, 0x00, 0].getD k 0

/-- Three proximity samples `3, 5, 4`. -/
def prox_samples : Nat → Nat := fun i => [3, 5, 4].getD i 0

/-- Two proximity samples `0, 4`. -/
def prox_samples_spread : Nat → Nat := fun i => [0, 4].getD i 0

/-- SMBus results for one `taos_prox_poll`: every write succeeds, the status byte
is `0x13`, the proximity registers read `0x34` (low) and `0x02` (high). -/
def bus_prox_sample : Nat → Int := fun k => [0, 0x13, 0, 0x34, 0, 0x02].getD k 0

/-- SMBus results for one `taos_als_calibrate`: the control register reads `0x03`,
the second read gives `0x01`, then the results of `bus_lux_bright` follow. -/
def bus_calibrate_sample : Nat → Int := fun k =>
  [0, 0x03, 0, 0x01, 0, 0x11, 0, 0xE8, 0, 0x03, 0, 0x64, 0, 0x00, 0].getD k 0

/-- The powered chip after the reading of `bus_lux_bright`: 478 lux. -/
def chip_after_lux : tsl2771_chip :=
  { chip_powered with als_cur_info := ⟨1000, 100, 478⟩ }

/-- The powered chip with `als_cal_target` set to 4295168 through
`taos_als_cal_target_store`. -/
def chip_big_target : tsl2771_chip :=
  (taos_als_cal_target_store chip_powered (some 4295168) 8).2

/-- The chip `chip_big_target` after the reading of `bus_lux_bright`: 478 lux. -/
def chip_big_target_after_lux : tsl2771_chip :=
  { chip_big_target with als_cur_info := ⟨1000, 100, 478⟩ }

end Tsl2771

/-! USB gadget serial over SMD (`drivers/usb/gadget/u_smd.c`)

The request lists of a port are Lean lists; a `usb_request` carries the address
of the C object as `id`.  Calls into the USB controller driver and into SMD are
answered by streams supplied from outside.
-/

namespace USmd

def RX_QUEUE_SIZE : Nat := 8
def RX_BUF_SIZE : Nat := 2048
def TX_QUEUE_SIZE : Nat := 8
def TX_BUF_SIZE : Nat := 2048

def EINVAL : Int := 22
def ENOMEM : Int := 12
def ESHUTDOWN : Int := 108

/-- The fields of `struct usb_request` the driver uses; `id` identifies the object. -/
structure usb_request where
  id : Nat
  buf : List Nat
  length : Nat
  actual : Nat
  status : Int
  deriving DecidableEq, Repr

/-- `struct gsmd_port`: the request lists, `n_read`, `port_usb` (the address of the
`gserial`, `none` for NULL) and whether the work items `push`, `pull`,
`connect_work` are queued on `gsmd_wq`. -/
structure gsmd_port where
  port_num : Nat
  n_read : Nat
  read_pool : List usb_request
  read_queue : List usb_request
  write_pool : List usb_request
  port_usb : Option Nat
  push_queued : Bool
  pull_queued : Bool
  connect_work_queued : Bool
  cbits_to_modem : Nat
  cbits_to_laptop : Nat
  deriving DecidableEq, Repr

/-- `struct gserial` as seen by this driver: its address `id`, the `driver_data`
of its IN and OUT endpoints (the number of the port they point to, `none` for
NULL) and whether `notify_modem` has been set to `gsmd_notify_modem`. -/
structure gserial where
  id : Nat
  in_driver_data : Option Nat
  out_driver_data : Option Nat
  notify_modem_set : Bool
  deriving DecidableEq, Repr

/-- `gsmd_port_alloc`: the port as `kzalloc` and the list initialisers leave it. -/
def gsmd_port_alloc (portno : Nat) : gsmd_port :=
  { port_num := portno
    n_read := 0
    read_pool := []
    read_queue := []
    write_pool := []
    port_usb := none
    push_queued := false
    pull_queued := false
    connect_work_queued := false
    cbits_to_modem := 0
    cbits_to_laptop := 0 }

/-! ## `gsmd_connect` -/

/-- `int gsmd_connect(struct gserial *gser, u8 portno)`.  `ports` is
`ports[0 .. n_ports-1].port`; `en_in` and `en_out` are the results of the two
`usb_ep_enable` calls (the second is made only if the first returned 0).
The result is the return value, the ports and the `gserial` afterwards. -/
def gsmd_connect (ports : List gsmd_port) (gser : Option gserial) (portno : Nat)
    (en_in en_out : Int) : Int × List gsmd_port × Option gserial :=
  if portno ≥ ports.length then (-EINVAL, ports, gser)
  else
    match gser with
    | none => (-EINVAL, ports, gser)
    | some g =>
      match ports[portno]? with
      | none => (-EINVAL, ports, gser)
      | some port =>
        let port1 := { port with port_usb := some g.id }
        let g1 := { g with notify_modem_set := true }
        if en_in ≠ 0 then
          (en_in, ports.set portno { port1 with port_usb := none }, some g1)
        else
          let g2 := { g1 with in_driver_data := some portno }
          if en_out ≠ 0 then
            (en_out, ports.set portno { port1 with port_usb := none },
              some { g2 with in_driver_data := none })
          else
            let g3 := { g2 with out_driver_data := some portno }
            (0, ports.set portno { port1 with connect_work_queued := true }, some g3)

/-! ## The RX path -/

/-- A port together with the requests queued on its USB OUT endpoint (handed to
`usb_ep_queue` and not yet completed), the bytes `smd_write` has accepted so far,
and the next address the allocator hands out. -/
structure rx_state where
  port : gsmd_port
  out_ep : List usb_request
  smd_written : List Nat
  next_id : Nat
  deriving DecidableEq, Repr

/-- The stream that remains after `k` answers have been used. -/
def after {α : Type} (s : Nat → α) (k : Nat) : Nat → α := fun i => s (i + k)

/-- The loop of `gsmd_start_rx`: each request of the pool is taken from the head,
its `length` set to `RX_BUF_SIZE` and passed to `usb_ep_queue`, whose results are
`q`; at the first failure the request goes back to the tail of the pool and the
loop ends.  Result: the pool and the requests queued, in order. -/
def gsmd_start_rx_loop : List usb_request → (Nat → Int) →
    List usb_request × List usb_request
  | [], _ => ([], [])
  | req :: rest, q =>
    let req1 := { req with length := RX_BUF_SIZE }
    if q 0 ≠ 0 then (rest ++ [req1], [])
    else
      let r := gsmd_start_rx_loop rest (after q 1)
      (r.1, req1 :: r.2)

/-- `static void gsmd_start_rx(struct gsmd_port *port)`. -/
def gsmd_start_rx (st : rx_state) (q : Nat → Int) : rx_state :=
  match st.port.port_usb with
  | none => st
  | some _ =>
    let r := gsmd_start_rx_loop st.port.read_pool q
    { st with port := { st.port with read_pool := r.1 }, out_ep := st.out_ep ++ r.2 }

/-- `static void gsmd_read_complete(struct usb_ep *ep, struct usb_request *req)`;
`port` is `ep->driver_data`. -/
def gsmd_read_complete (port : Option gsmd_port) (req : usb_request) : Option gsmd_port :=
  match port with
  | none => none
  | some p => some { p with read_queue := p.read_queue ++ [req], push_queued := true }

/-- Removes the request with address `id` from a list. -/
def take_req (id : Nat) : List usb_request → Option (usb_request × List usb_request)
  | [] => none
  | r :: rest =>
    if r.id = id then some (r, rest)
    else
      match take_req id rest with
      | none => none
      | some (x, l) => some (x, r :: l)

/-- The USB controller completes the OUT request with address `id`, which it
holds: it fills in `status`, `actual` and the buffer and calls the request's
`complete` callback, `gsmd_read_complete`, with the endpoint's `driver_data`
pointing to the port.  A request the endpoint does not hold cannot complete. -/
def out_ep_complete (st : rx_state) (id : Nat) (status : Int) (data : List Nat) : rx_state :=
  match take_req id st.out_ep with
  | none => st
  | some (req, rest) =>
    match gsmd_read_complete (some st.port)
        { req with status := status, actual := data.length, buf := data } with
    | none => st
    | some p => { st with port := p, out_ep := rest }

/-- The loop of `gsmd_rx_push` over `read_queue`.  `smd k` answers the `k`-th
iteration: `(smd k).1` is the result of `smd_write_avail`, `(smd k).2` the room
`smd_write` finds, so that `smd_write` accepts and returns
`min (room) (size)` bytes.  Arguments: `n_read`, `read_pool`, the bytes written so
far; result: `n_read`, `read_pool`, `read_queue`, the bytes written. -/
def gsmd_rx_push_loop (n_read : Nat) (pool : List usb_request) (written : List Nat) :
    List usb_request → (Nat → Int × Nat) →
    Nat × List usb_request × List usb_request × List Nat
  | [], _ => (n_read, pool, [], written)
  | req :: rest, smd =>
    if req.status = -ESHUTDOWN then (n_read, pool, req :: rest, written)
    else if (smd 0).1 = 0 then (n_read, pool, req :: rest, written)
    else if req.actual ≠ 0 then
      let n := n_read
      let packet := req.buf.drop n
      let size := (req.actual + 4294967296 - n) % 4294967296
      let count := min (smd 0).2 size
      if count ≠ size then
        ((n_read + count) % 4294967296, pool, req :: rest, written ++ packet.take count)
      else
        gsmd_rx_push_loop n_read (req :: pool) (written ++ packet.take count) rest
          (after smd 1)
    else gsmd_rx_push_loop n_read (req :: pool) written rest (after smd 1)

/-- `static void gsmd_rx_push(struct work_struct *w)`: the loop, then
`gsmd_start_rx`. -/
def gsmd_rx_push (st : rx_state) (smd : Nat → Int × Nat) (q : Nat → Int) : rx_state :=
  let r := gsmd_rx_push_loop st.port.n_read st.port.read_pool st.smd_written
    st.port.read_queue smd
  gsmd_start_rx
    { st with
      port := { st.port with n_read := r.1, read_pool := r.2.1, read_queue := r.2.2.1,
                             push_queued := false }
      smd_written := r.2.2.2 } q

/-- `gsmd_alloc_requests(ep, head, num, size, cb)`: `ok k` tells whether the
`k`-th `gsmd_alloc_req` succeeds; a new request gets the address `next_id` and is
added at the head of the list.  Result: return value, list, next address. -/
def gsmd_alloc_requests (size : Nat) : Nat → List usb_request → Nat → (Nat → Bool) →
    Int × List usb_request × Nat
  | 0, head, nid, _ => (0, head, nid)
  | num + 1, head, nid, ok =>
    if ok 0 then
      gsmd_alloc_requests size num
        ({ id := nid, buf := List.replicate size 0, length := size, actual := 0, status := 0 }
          :: head) (nid + 1) (after ok 1)
    else ((if head.isEmpty then -ENOMEM else 0), head, nid)

/-- `static void gsmd_start_io(struct gsmd_port *port)`: allocate the OUT and the
IN requests, then `gsmd_start_rx`. -/
def gsmd_start_io (st : rx_state) (ok_out ok_in : Nat → Bool) (q : Nat → Int) : rx_state :=
  let a := gsmd_alloc_requests RX_BUF_SIZE RX_QUEUE_SIZE st.port.read_pool st.next_id ok_out
  let st1 := { st with port := { st.port with read_pool := a.2.1 }, next_id := a.2.2 }
  if a.1 ≠ 0 then st1
  else
    let b := gsmd_alloc_requests TX_BUF_SIZE TX_QUEUE_SIZE st1.port.write_pool st1.next_id ok_in
    let st2 := { st1 with port := { st1.port with write_pool := b.2.1 }, next_id := b.2.2 }
    if b.1 ≠ 0 then
      -- gsmd_free_requests(port->port_usb->out, &port->read_pool)
      { st2 with port := { st2.port with read_pool := [] } }
    else gsmd_start_rx st2 q

/-- One event of the RX path. -/
inductive rx_event where
  | start_rx (q : Nat → Int)
  | read_complete (id : Nat) (status : Int) (data : List Nat)
  | rx_push (smd : Nat → Int × Nat) (q : Nat → Int)

/-- The effect of one event. -/
def rx_step (st : rx_state) : rx_event → rx_state
  | .start_rx q => gsmd_start_rx st q
  | .read_complete id status data => out_ep_complete st id status data
  | .rx_push smd q => gsmd_rx_push st smd q

/-- The addresses of the requests in `read_pool`, on the OUT endpoint and in
`read_queue`. -/
def rx_ids (st : rx_state) : List Nat :=
  (st.port.read_pool ++ st.out_ep ++ st.port.read_queue).map (fun r => r.id)

/-- A connected port right after `gsmd_port_alloc` and `gsmd_connect`, with no
request allocated yet. -/
def rx_state_connected (portno gser : Nat) : rx_state :=
  { port := { gsmd_port_alloc portno with port_usb := some gser }
    out_ep := []
    smd_written := []
    next_id := 0 }

/-- Two completed OUT requests in `read_queue`, holding `1 2 3 4` and `5 6 7 8`. -/
def rx_two_packets : rx_state :=
  { port := { gsmd_port_alloc 0 with
      port_usb := some 100
      read_queue := [⟨0, [1, 2, 3, 4], 2048, 4, 0⟩, ⟨1, [5, 6, 7, 8], 2048, 4, 0⟩] }
    out_ep := []
    smd_written := []
    next_id := 2 }

end USmd

/-! # Theorems -/

namespace Tsl2771

theorem wrapU32_of_lt {x : Nat} (h : x < 4294967296) : wrapU32 x = x := by
  unfold wrapU32; exact Nat.mod_eq_of_lt h

theorem taos_isqrt_scale_zero (fuel op : Nat) : taos_isqrt_scale fuel 0 op = 0 := by
  cases fuel <;> simp [taos_isqrt_scale]

theorem taos_isqrt_loop_zero (fuel op res : Nat) : taos_isqrt_loop fuel op res 0 = res := by
  cases fuel <;> simp [taos_isqrt_loop]

theorem four_pow_succ_shift (k : Nat) : (4 ^ (k + 1)) >>> 2 = 4 ^ k := by
  rw [Nat.shiftRight_eq_div_pow, pow_succ]
  norm_num

theorem taos_isqrt_scale_spec (k : Nat) :
    ∀ fuel op, k + 1 ≤ fuel → op < 4 ^ (k + 1) →
      (op = 0 ∧ taos_isqrt_scale fuel (4 ^ k) op = 0) ∨
      (∃ j, j ≤ k ∧ taos_isqrt_scale fuel (4 ^ k) op = 4 ^ j ∧ 4 ^ j ≤ op ∧ op < 4 ^ (j + 1)) := by
  induction k with
  | zero =>
    intro fuel op hf hop
    obtain ⟨f, rfl⟩ : ∃ f, fuel = f + 1 := ⟨fuel - 1, by omega⟩
    by_cases h0 : op = 0
    · left
      subst h0
      refine ⟨rfl, ?_⟩
      simp [taos_isqrt_scale, taos_isqrt_scale_zero]
    · right
      refine ⟨0, le_refl _, ?_, ?_, hop⟩
      · have : ¬ (1 > op) := by omega
        simp [taos_isqrt_scale, this]
      · simp; omega
  | succ k ih =>
    intro fuel op hf hop
    obtain ⟨f, rfl⟩ : ∃ f, fuel = f + 1 := ⟨fuel - 1, by omega⟩
    by_cases hlt : 4 ^ (k + 1) > op
    · have hstep : taos_isqrt_scale (f + 1) (4 ^ (k + 1)) op = taos_isqrt_scale f (4 ^ k) op := by
        rw [taos_isqrt_scale, if_pos hlt, four_pow_succ_shift]
      rcases ih f op (by omega) hlt with ⟨h0, hr⟩ | ⟨j, hj, hr, h1, h2⟩
      · left; exact ⟨h0, by rw [hstep, hr]⟩
      · right; exact ⟨j, by omega, by rw [hstep, hr], h1, h2⟩
    · right
      refine ⟨k + 1, le_refl _, ?_, by omega, hop⟩
      rw [taos_isqrt_scale, if_neg hlt]

theorem taos_isqrt_loop_spec (k : Nat) :
    ∀ fuel R x, k + 1 ≤ fuel → R * R ≤ x → x < (R + 2 * 2 ^ k) * (R + 2 * 2 ^ k) →
      R + 2 * 2 ^ k ≤ 65536 → k ≤ 15 →
      taos_isqrt_loop fuel (x - R * R) (2 * R * 2 ^ k) (4 ^ k) = Nat.sqrt x := by
  induction k with
  | zero =>
    intro fuel R x hf hlo hhi hR _
    obtain ⟨f, rfl⟩ : ∃ f, fuel = f + 1 := ⟨fuel - 1, by omega⟩
    simp only [pow_zero, mul_one] at *
    have hRR : R * R < 65536 * 65536 := Nat.mul_lt_mul'' (by omega) (by omega)
    rw [taos_isqrt_loop]
    simp only [ne_eq, one_ne_zero, not_false_eq_true, if_true]
    have hw : wrapU32 (2 * R + 1) = 2 * R + 1 := wrapU32_of_lt (by omega)
    rw [hw]
    have hsh : (1 : Nat) >>> 2 = 0 := by decide
    rw [hsh]
    by_cases hc : x - R * R ≥ 2 * R + 1
    · rw [if_pos hc, taos_isqrt_loop_zero]
      have h1 : wrapU32 (1 <<< 1) = 2 := by decide
      rw [h1, wrapU32_of_lt (by omega), Nat.shiftRight_eq_div_pow]
      have h2 : (2 * R + 2) / 2 ^ 1 = R + 1 := by omega
      rw [h2]
      apply Nat.eq_sqrt.mpr
      have e : (R + 1) * (R + 1) = R * R + (2 * R + 1) := by ring
      have e2 : (R + 1 + 1) * (R + 1 + 1) = (R + 2) * (R + 2) := by ring
      constructor
      · rw [e]; omega
      · rw [e2]; exact hhi
    · rw [if_neg hc, taos_isqrt_loop_zero, Nat.shiftRight_eq_div_pow]
      have h2 : (2 * R) / 2 ^ 1 = R := by omega
      rw [h2]
      apply Nat.eq_sqrt.mpr
      have e : (R + 1) * (R + 1) = R * R + (2 * R + 1) := by ring
      constructor
      · exact hlo
      · rw [e]; omega
  | succ k ih =>
    intro fuel R x hf hlo hhi hR hk
    obtain ⟨f, rfl⟩ : ∃ f, fuel = f + 1 := ⟨fuel - 1, by omega⟩
    have hm : 0 < 2 ^ k := Nat.pos_pow_of_pos k (by norm_num)
    have hm15 : 2 ^ k ≤ 2 ^ 14 := Nat.pow_le_pow_right (by norm_num) (by omega)
    have e4 : 4 ^ (k + 1) = 4 * (2 ^ k * 2 ^ k) := by
      rw [pow_succ, show (4 : Nat) = 2 ^ 2 by norm_num, ← pow_mul, mul_comm 2 k, pow_mul]
      ring
    have e2 : (2 : Nat) ^ (k + 1) = 2 * 2 ^ k := by rw [pow_succ]; ring
    have e4k : 4 ^ k = 2 ^ k * 2 ^ k := by
      rw [show (4 : Nat) = 2 ^ 2 by norm_num, ← pow_mul, mul_comm 2 k, pow_mul]
      ring
    rw [e2] at hhi hR
    generalize hmdef : 2 ^ k = m at *
    have hRR : R * R ≤ 65536 * 65536 := Nat.mul_le_mul (by omega) (by omega)
    have hx : x < 4294967296 := by
      have : (R + 2 * (2 * m)) * (R + 2 * (2 * m)) ≤ 65536 * 65536 := Nat.mul_le_mul hR hR
      omega
    have hexp : (R + 2 * (2 * m)) * (R + 2 * (2 * m))
        = R * R + (2 * R * (2 * m) + 4 * (m * m)) + (4 * R * m + 12 * (m * m)) := by ring
    have hexp2 : (R + 2 * m) * (R + 2 * m) = R * R + (2 * R * (2 * m) + 4 * (m * m)) := by ring
    have hmm : m * m ≤ 16384 * 16384 := Nat.mul_le_mul (by omega) (by omega)
    have hRm : R * m ≤ 65536 * 16384 := Nat.mul_le_mul (by omega) (by omega)
    rw [taos_isqrt_loop]
    have hone : (4 : Nat) ^ (k + 1) ≠ 0 := by positivity
    rw [if_pos hone, four_pow_succ_shift, e4, e2, e4k]
    have hb1 : 2 * R * (2 * m) + 4 * (m * m) < 4294967296 := by
      have : (R + 2 * m) * (R + 2 * m) < 65536 * 65536 :=
        Nat.mul_lt_mul'' (by omega) (by omega)
      omega
    rw [wrapU32_of_lt hb1]
    by_cases hc : x - R * R ≥ 2 * R * (2 * m) + 4 * (m * m)
    · rw [if_pos hc]
      have hsl : (4 * (m * m)) <<< 1 = 8 * (m * m) := by
        rw [Nat.shiftLeft_eq]; ring
      have hb2 : 8 * (m * m) < 4294967296 := by omega
      have hb3 : 2 * R * (2 * m) + 8 * (m * m) < 4294967296 := by
        have e : 2 * R * (2 * m) + 8 * (m * m) = 4 * ((R + 2 * m) * m) := by ring
        have : (R + 2 * m) * m ≤ 65535 * 16384 := Nat.mul_le_mul (by omega) (by omega)
        omega
      rw [hsl, wrapU32_of_lt hb2, wrapU32_of_lt hb3, Nat.shiftRight_eq_div_pow]
      have h2 : (2 * R * (2 * m) + 8 * (m * m)) / 2 ^ 1 = 2 * (R + 2 * m) * m := by
        have : 2 * R * (2 * m) + 8 * (m * m) = 2 * (2 * (R + 2 * m) * m) := by ring
        rw [this]; omega
      have h3 : wrapU32 (x - R * R + 4294967296 - (2 * R * (2 * m) + 4 * (m * m)))
          = x - (R + 2 * m) * (R + 2 * m) := by
        rw [hexp2]
        unfold wrapU32
        omega
      rw [h2, h3]
      have := ih f (R + 2 * m) x (by omega) (by rw [hexp2]; omega) (by
        have : R + 2 * m + 2 * m = R + 2 * (2 * m) := by ring
        rw [this]; exact hhi) (by omega) (by omega)
      rw [e4k] at this
      exact this
    · rw [if_neg hc, Nat.shiftRight_eq_div_pow]
      have h2 : (2 * R * (2 * m)) / 2 ^ 1 = 2 * R * m := by
        have : 2 * R * (2 * m) = 2 * (2 * R * m) := by ring
        rw [this]; omega
      rw [h2]
      have := ih f R x (by omega) hlo (by rw [hexp2]; omega) (by omega) (by omega)
      rw [e4k] at this
      exact this

/-- C1: for every `x < 2^32`, `taos_isqrt x` is the integer square root of `x`: the unique
`r` with `r * r ≤ x < (r + 1) * (r + 1)`. -/
theorem taos_isqrt_correct (x : Nat) (hx : x < 4294967296) :
    taos_isqrt x * taos_isqrt x ≤ x ∧ x < (taos_isqrt x + 1) * (taos_isqrt x + 1) ∧
    ∀ r : Nat, r * r ≤ x → x < (r + 1) * (r + 1) → r = taos_isqrt x := by
  have key : taos_isqrt x = Nat.sqrt x := by
    unfold taos_isqrt
    have h30 : (1 : Nat) <<< 30 = 4 ^ 15 := by norm_num [Nat.shiftLeft_eq]
    have h16 : (4 : Nat) ^ (15 + 1) = 4294967296 := by norm_num
    rw [h30]
    rcases taos_isqrt_scale_spec 15 17 x (by norm_num) (by rw [h16]; exact hx) with
      ⟨h0, hr⟩ | ⟨j, hj, hr, h1, h2⟩
    · rw [hr, taos_isqrt_loop_zero, h0]; rfl
    · rw [hr]
      have := taos_isqrt_loop_spec j 17 0 x (by omega) (by simp) (by
        have e : (0 + 2 * 2 ^ j) * (0 + 2 * 2 ^ j) = 4 ^ (j + 1) := by
          rw [pow_succ, show (4 : Nat) = 2 ^ 2 by norm_num, ← pow_mul, mul_comm 2 j, pow_mul]
          ring
        rw [e]; exact h2) (by
        have : 2 ^ j ≤ 2 ^ 15 := Nat.pow_le_pow_right (by norm_num) hj
        norm_num at this ⊢; omega) hj
      simpa using this
  rw [key]
  refine ⟨Nat.sqrt_le x, Nat.lt_succ_sqrt x, ?_⟩
  intro r h1 h2
  exact Nat.eq_sqrt.mpr ⟨h1, h2⟩

theorem taos_isqrt_correct_witness :
    (10 : Nat) < 4294967296 ∧
    (taos_isqrt 10 * taos_isqrt 10 ≤ 10 ∧ 10 < (taos_isqrt 10 + 1) * (taos_isqrt 10 + 1) ∧
    ∀ r : Nat, r * r ≤ 10 → 10 < (r + 1) * (r + 1) → r = taos_isqrt 10) :=
  ⟨by decide, taos_isqrt_correct 10 (by decide)⟩

/-! ### `taos_get_lux` -/

theorem taos_i2c_read_one (bus : Nat → Int) (h : 0 ≤ bus 0) :
    taos_i2c_read bus 1 = (0, [toU8 (bus 1)]) := by
  simp [taos_i2c_read, not_lt.mpr h]

theorem taos_i2c_read_one_err (bus : Nat → Int) (h : bus 0 < 0) :
    taos_i2c_read bus 1 = (bus 0, []) := by
  simp [taos_i2c_read, h]

theorem taos_get_lux_path (tbl : List taos_lux) (chip : tsl2771_chip) (bus : Nat → Int)
    (h : lux_new_reading chip bus) :
    taos_get_lux tbl chip bus = taos_get_lux_calc tbl chip
      (toU8 (bus 3) + 256 * toU8 (bus 5)) (toU8 (bus 7) + 256 * toU8 (bus 9)) := by
  obtain ⟨hm, hw, h0, hv, h2, h4, h6, h8, h10⟩ := h
  have e2 : taos_i2c_read (busAfter bus 2) 1 = (0, [toU8 (bus 3)]) :=
    taos_i2c_read_one (busAfter bus 2) h2
  have e4 : taos_i2c_read (busAfter bus 4) 1 = (0, [toU8 (bus 5)]) :=
    taos_i2c_read_one (busAfter bus 4) h4
  have e6 : taos_i2c_read (busAfter bus 6) 1 = (0, [toU8 (bus 7)]) :=
    taos_i2c_read_one (busAfter bus 6) h6
  have e8 : taos_i2c_read (busAfter bus 8) 1 = (0, [toU8 (bus 9)]) :=
    taos_i2c_read_one (busAfter bus 8) h8
  unfold taos_get_lux
  rw [taos_i2c_read_one bus h0, e2, e4, e6, e8]
  simp [hm, hw, hv, not_lt.mpr h10]

theorem toU16_of_le {n : Nat} (h : n ≤ 65535) : toU16 (n : Int) = n := by
  unfold toU16
  omega

theorem taos_lux_scale_le (lux : Nat) (ts t : Int) : taos_lux_scale lux ts t ≤ 65535 := by
  unfold taos_lux_scale TSL277X_LUX_CALC_OVER_FLOW
  simp only
  split_ifs <;> omega

/-- Every defined result of the computation part is a value in `0..65535` that is also
the stored `lux`; the settings are not touched. -/
theorem taos_get_lux_calc_spec (tbl : List taos_lux) (chip : tsl2771_chip) (ch0 ch1 : Nat)
    (ret : Int) (chip1 : tsl2771_chip)
    (h : taos_get_lux_calc tbl chip ch0 ch1 = some (ret, chip1)) :
    0 ≤ ret ∧ ret ≤ 65535 ∧ (chip1.als_cur_info.lux : Int) = ret ∧
      chip1.taos_settings = chip.taos_settings := by
  unfold taos_get_lux_calc at h
  simp only at h
  split at h
  · simp only [Option.some.injEq, Prod.mk.injEq] at h
    obtain ⟨rfl, rfl⟩ := h
    simp [set_lux, TSL277X_LUX_CALC_OVER_FLOW, toU16]
  · split at h
    · simp only [Option.some.injEq, Prod.mk.injEq] at h
      obtain ⟨rfl, rfl⟩ := h
      simp [set_lux, toU16]
    · split at h
      · exact absurd h (by simp)
      · split at h
        · exact absurd h (by simp)
        · split at h
          · simp only [Option.some.injEq, Prod.mk.injEq] at h
            obtain ⟨rfl, rfl⟩ := h
            simp [set_lux, toU16]
          · simp only [Option.some.injEq, Prod.mk.injEq] at h
            obtain ⟨rfl, rfl⟩ := h
            rename_i ch0lux ch1lux _ _
            have hb := taos_lux_scale_le (wrapU32 (ch0lux + 4294967296 - ch1lux))
              chip.als_time_scale chip.taos_settings.als_gain_trim
            refine ⟨by positivity, by exact_mod_cast hb, ?_, rfl⟩
            simp only [set_lux]
            rw [toU16_of_le hb]

theorem taos_lux_scan_defined (ratio : Nat) (tbl : List taos_lux)
    (h : ∃ e ∈ tbl, e.ratio = 0) : ∃ p, taos_lux_scan ratio tbl = some p := by
  induction tbl with
  | nil => simp at h
  | cons q rest ih =>
    unfold taos_lux_scan
    by_cases hq : q.ratio ≠ 0 ∧ q.ratio < ratio
    · rw [if_pos hq]
      apply ih
      obtain ⟨e, he, h0⟩ := h
      rcases List.mem_cons.mp he with rfl | hr
      · exact absurd h0 hq.1
      · exact ⟨e, hr, h0⟩
    · rw [if_neg hq]
      exact ⟨q, rfl⟩

theorem gainadj_at_defined (g : Int) (h0 : 0 ≤ g) (h4 : g < 4) :
    ∃ a, gainadj_at g = some a ∧ a.ch1 = a.ch0 ∧
      (a.ch0 = 1 ∨ a.ch0 = 8 ∨ a.ch0 = 16 ∨ a.ch0 = 120) := by
  have : g = 0 ∨ g = 1 ∨ g = 2 ∨ g = 3 := by omega
  rcases this with rfl | rfl | rfl | rfl <;> simp [gainadj_at, tsl2771_gainadj]

theorem taos_get_lux_calc_defined (tbl : List taos_lux) (chip : tsl2771_chip) (ch0 ch1 : Nat)
    (ht : ∃ e ∈ tbl, e.ratio = 0) (h0 : 0 ≤ chip.taos_settings.als_gain)
    (h4 : chip.taos_settings.als_gain < 4) :
    (taos_get_lux_calc tbl chip ch0 ch1).isSome = true := by
  unfold taos_get_lux_calc
  simp only
  split
  · rfl
  · split
    · rfl
    · obtain ⟨p, hp⟩ := taos_lux_scan_defined ((ch1 <<< 15) / ch0) tbl ht
      obtain ⟨a, ha, _⟩ := gainadj_at_defined _ h0 h4
      rw [hp]
      simp only [ha]
      by_cases hz : p.ratio = 0
      · simp only [hz, if_true]
        split <;> rfl
      · simp only [hz, if_false]
        split <;> rfl

theorem taos_get_lux_defined (tbl : List taos_lux) (chip : tsl2771_chip) (bus : Nat → Int)
    (ht : ∃ e ∈ tbl, e.ratio = 0) (h0 : 0 ≤ chip.taos_settings.als_gain)
    (h4 : chip.taos_settings.als_gain < 4) : (taos_get_lux tbl chip bus).isSome = true := by
  have hc := taos_get_lux_calc_defined tbl chip
    ((taos_i2c_read (busAfter bus 2) 1).2.getD 0 0 +
      256 * (taos_i2c_read (busAfter bus 4) 1).2.getD 0 0)
    ((taos_i2c_read (busAfter bus 6) 1).2.getD 0 0 +
      256 * (taos_i2c_read (busAfter bus 8) 1).2.getD 0 0) ht h0 h4
  unfold taos_get_lux
  dsimp only
  generalize taos_get_lux_calc tbl chip _ _ = X at hc ⊢
  iterate 9 (split; · rfl)
  exact hc

/-- C3: every non-negative value returned by `taos_get_lux` lies in `0..65535`, and on
the path that computes a new reading the stored `als_cur_info.lux` equals the value
returned; the result is defined whenever the table has a terminating entry and the gain
index is inside `tsl2771_gainadj`. -/
theorem taos_get_lux_range (tbl : List taos_lux) (chip : tsl2771_chip) (bus : Nat → Int)
    (hl : chip.als_cur_info.lux ≤ 65535) :
    (∀ ret chip1, taos_get_lux tbl chip bus = some (ret, chip1) →
      (0 ≤ ret → ret ≤ 65535) ∧
      (lux_new_reading chip bus → (chip1.als_cur_info.lux : Int) = ret)) ∧
    ((∃ e ∈ tbl, e.ratio = 0) → 0 ≤ chip.taos_settings.als_gain →
      chip.taos_settings.als_gain < 4 → (taos_get_lux tbl chip bus).isSome = true) := by
  have hlux : (chip.als_cur_info.lux : Int) ≤ 65535 := by exact_mod_cast hl
  constructor
  · intro ret chip1 h
    by_cases hp : lux_new_reading chip bus
    · rw [taos_get_lux_path tbl chip bus hp] at h
      obtain ⟨_, h2, h3, _⟩ := taos_get_lux_calc_spec tbl chip _ _ ret chip1 h
      exact ⟨fun _ => h2, fun _ => h3⟩
    · refine ⟨?_, fun hc => absurd hc hp⟩
      intro hret
      unfold taos_get_lux at h
      simp only at h
      split_ifs at h with c1 c2 c3 c4 c5 c6 c7 c8 c9
      all_goals first
        | exact (taos_get_lux_calc_spec tbl chip _ _ ret chip1 h).2.1
        | (simp only [Option.some.injEq, Prod.mk.injEq] at h
           obtain ⟨rfl, rfl⟩ := h
           first
             | exact hlux
             | (exfalso; unfold EBUSY at hret; omega)
             | (exfalso; omega))
  · exact taos_get_lux_defined tbl chip bus

theorem taos_get_lux_range_witness :
    chip_powered.als_cur_info.lux ≤ 65535 ∧
    ((∀ ret chip1, taos_get_lux taos_device_lux chip_powered bus_lux_sample = some (ret, chip1) →
      (0 ≤ ret → ret ≤ 65535) ∧
      (lux_new_reading chip_powered bus_lux_sample → (chip1.als_cur_info.lux : Int) = ret)) ∧
    ((∃ e ∈ taos_device_lux, e.ratio = 0) → 0 ≤ chip_powered.taos_settings.als_gain →
      chip_powered.taos_settings.als_gain < 4 →
      (taos_get_lux taos_device_lux chip_powered bus_lux_sample).isSome = true)) :=
  ⟨by decide, taos_get_lux_range taos_device_lux chip_powered bus_lux_sample (by decide)⟩

theorem toU32_natCast {n : Nat} (h : n < 4294967296) : toU32 (n : Int) = n := by
  unfold toU32
  omega

theorem taos_lux_scan_first (ratio : Nat) (pre post : List taos_lux) (p : taos_lux)
    (hpre : ∀ q ∈ pre, q.ratio ≠ 0 ∧ q.ratio < ratio)
    (hsel : p.ratio = 0 ∨ ratio ≤ p.ratio) :
    taos_lux_scan ratio (pre ++ p :: post) = some p := by
  induction pre with
  | nil =>
    simp only [List.nil_append, taos_lux_scan]
    rw [if_neg]
    rintro ⟨h1, h2⟩
    rcases hsel with h | h
    · exact h1 h
    · omega
  | cons q rest ih =>
    simp only [List.cons_append, taos_lux_scan]
    rw [if_pos (hpre q (List.mem_cons_self _ _))]
    exact ih (fun r hr => hpre r (List.mem_cons_of_mem _ hr))

theorem gainadj_at_some (i : Int) (g : gainadj) (h : gainadj_at i = some g) :
    g.ch1 = g.ch0 ∧ (g.ch0 = 1 ∨ g.ch0 = 8 ∨ g.ch0 = 16 ∨ g.ch0 = 120) := by
  unfold gainadj_at at h
  split at h
  · exact absurd h (by simp)
  · rename_i hneg
    by_cases h4 : i < 4
    · obtain ⟨a, ha, h1, h2⟩ := gainadj_at_defined i (by omega) h4
      unfold gainadj_at at ha
      rw [if_neg hneg, h] at ha
      cases ha
      exact ⟨h1, h2⟩
    · have : 4 ≤ i.toNat := by omega
      rw [List.getElem?_eq_none (by simpa [tsl2771_gainadj] using this)] at h
      exact absurd h (by simp)

/-- The two channel terms of the lux computation for a table entry and a gain divisor
`g` from `tsl2771_gainadj`, when the 32-bit sums do not overflow. -/
theorem lux_terms_nat (c x g : Nat) (hg : 0 < g) (hg' : g ≤ 120)
    (ho : c * x + g / 2 < 4294967296) :
    wrapU32 (wrapU32 (c * x) + toU32 ((g : Int) >>> (1 : Nat))) / toU32 (g : Int)
      = (c * x + g / 2) / g := by
  have e1 : ((g : Int) >>> (1 : Nat)) = ((g / 2 : Nat) : Int) := by
    rw [Int.shiftRight_eq_div_pow]; norm_num
  have hcx : c * x < 4294967296 := by omega
  rw [e1, toU32_natCast (by omega), toU32_natCast (by omega), wrapU32_of_lt hcx,
    wrapU32_of_lt ho]

theorem wrap_mul_add (L : Nat) (t : Int) (c : Nat) (h0 : 0 ≤ (L : Int) * t + c)
    (h1 : (L : Int) * t + c < 4294967296) :
    ((wrapU32 (wrapU32 (L * toU32 t) + c) : Nat) : Int) = (L : Int) * t + c := by
  unfold wrapU32 toU32
  push_cast
  rw [Int.toNat_of_nonneg (Int.emod_nonneg _ (by norm_num)), Int.emod_add_emod]
  have e : (L : Int) * (t % 4294967296) + c
      = ((L : Int) * t + c) + 4294967296 * (-((L : Int) * (t / 4294967296))) := by
    rw [Int.emod_def]; ring
  rw [e, Int.add_mul_emod_self_left, Int.emod_eq_of_lt h0 h1]

theorem taos_lux_scale_int (lux ts : Nat) (t : Int) (hts : 0 < ts) (h1 : ts < 4294967296)
    (ho2 : lux + ts / 2 < 4294967296)
    (ho3 : 0 ≤ (((lux + ts / 2) / ts / 256 : Nat) : Int) * t + 500)
    (ho4 : (((lux + ts / 2) / ts / 256 : Nat) : Int) * t + 500 < 4294967296) :
    ((taos_lux_scale lux (ts : Int) t : Nat) : Int)
      = min 65535 (((((lux + ts / 2) / ts / 256 : Nat) : Int) * t + 500) / 1000) := by
  unfold taos_lux_scale TSL277X_LUX_CALC_OVER_FLOW
  have e1 : ((ts : Int) >>> (1 : Nat)) = ((ts / 2 : Nat) : Int) := by
    rw [Int.shiftRight_eq_div_pow]; norm_num
  have hne : (ts : Int) ≠ 0 := by omega
  simp only [hne, if_false, e1]
  rw [toU32_natCast (by omega), toU32_natCast h1, wrapU32_of_lt ho2,
    Nat.shiftRight_eq_div_pow]
  have e256 : (2 : Nat) ^ 8 = 256 := by norm_num
  rw [e256]
  have key := wrap_mul_add ((lux + ts / 2) / ts / 256) t 500 (by exact_mod_cast ho3)
    (by exact_mod_cast ho4)
  generalize (lux + ts / 2) / ts / 256 = L at *
  generalize wrapU32 (wrapU32 (L * toU32 t) + 500) = X at *
  have hX : (((X / 1000 : Nat)) : Int) = ((L : Int) * t + 500) / 1000 := by
    have key2 : (X : Int) = (L : Int) * t + 500 := by rw [key]; norm_num
    rw [← key2]; push_cast; rfl
  clear e1 hne ho2 h1 hts
  split_ifs with h
  · have : (65535 : Int) < ((L : Int) * t + 500) / 1000 := by rw [← hX]; exact_mod_cast h
    rw [min_eq_left (le_of_lt this)]
    rfl
  · have : ((L : Int) * t + 500) / 1000 ≤ 65535 := by rw [← hX]; exact_mod_cast (not_lt.mp h)
    rw [min_eq_right this, hX]

/-- C2 (amended): on the path that computes a new reading, with `0 < ch0`, both channels
below `als_saturation`, `p` the first table entry whose ratio is 0 or not below
`(ch1 * 2^15) / ch0`, and time scale `ts > 0`: `taos_get_lux` returns 0 when `p` is the
terminating entry (ratio 0); otherwise, with `g = tsl2771_gainadj[als_gain].ch0`, when the
channel-1 term `(ch1*c1 + g/2)/g` does not exceed the channel-0 term `(ch0*c0 + g/2)/g`
and the 32-bit sums and products the code forms do not overflow, it returns the
specification's formula. -/
theorem taos_get_lux_value (tbl pre post : List taos_lux) (p : taos_lux)
    (chip : tsl2771_chip) (bus : Nat → Int) (ch0 ch1 : Nat) (g : gainadj)
    (hpath : lux_new_reading chip bus)
    (hch0 : ch0 = toU8 (bus 3) + 256 * toU8 (bus 5))
    (hch1 : ch1 = toU8 (bus 7) + 256 * toU8 (bus 9))
    (hpos : 0 < ch0)
    (hs0 : (ch0 : Int) < chip.als_saturation) (hs1 : (ch1 : Int) < chip.als_saturation)
    (htbl : tbl = pre ++ p :: post)
    (hpre : ∀ q ∈ pre, q.ratio ≠ 0 ∧ q.ratio < ch1 * 2 ^ 15 / ch0)
    (hsel : p.ratio = 0 ∨ ch1 * 2 ^ 15 / ch0 ≤ p.ratio)
    (hts : 0 < chip.als_time_scale) (hts' : chip.als_time_scale < 2147483648)
    (hg : p.ratio ≠ 0 → gainadj_at chip.taos_settings.als_gain = some g)
    (hle : p.ratio ≠ 0 →
      ((ch1 : Int) * p.ch1 + g.ch0 / 2) / g.ch0 ≤ ((ch0 : Int) * p.ch0 + g.ch0 / 2) / g.ch0)
    (ho0 : p.ratio ≠ 0 → (ch0 : Int) * p.ch0 + g.ch0 / 2 < 4294967296)
    (ho1 : p.ratio ≠ 0 → (ch1 : Int) * p.ch1 + g.ch0 / 2 < 4294967296)
    (ho2 : p.ratio ≠ 0 →
      ((ch0 : Int) * p.ch0 + g.ch0 / 2) / g.ch0 - ((ch1 : Int) * p.ch1 + g.ch0 / 2) / g.ch0
        + chip.als_time_scale / 2 < 4294967296)
    (ho3 : p.ratio ≠ 0 →
      0 ≤ lux_counts ch0 ch1 p.ch0 p.ch1 g.ch0 chip.als_time_scale
        * chip.taos_settings.als_gain_trim + 500)
    (ho4 : p.ratio ≠ 0 →
      lux_counts ch0 ch1 p.ch0 p.ch1 g.ch0 chip.als_time_scale
        * chip.taos_settings.als_gain_trim + 500 < 4294967296) :
    (taos_get_lux tbl chip bus).map Prod.fst = some
      (if p.ratio = 0 then 0
       else lux_formula ch0 ch1 p.ch0 p.ch1 g.ch0 chip.als_time_scale
         chip.taos_settings.als_gain_trim) := by
  rw [taos_get_lux_path tbl chip bus hpath, ← hch0, ← hch1]
  obtain ⟨ts, hts_eq⟩ : ∃ ts : Nat, chip.als_time_scale = ts :=
    ⟨chip.als_time_scale.toNat, by omega⟩
  have hscan : taos_lux_scan ((ch1 <<< 15) / ch0) tbl = some p := by
    rw [htbl, Nat.shiftLeft_eq]
    exact taos_lux_scan_first _ pre post p hpre hsel
  have hsat : ¬ ((ch0 : Int) ≥ chip.als_saturation ∨ (ch1 : Int) ≥ chip.als_saturation) := by
    omega
  have hnz : ¬ ch0 = 0 := by omega
  have tspos : 0 < ts := by omega
  have tslt : ts < 4294967296 := by omega
  unfold taos_get_lux_calc
  simp only
  rw [if_neg hsat, if_neg hnz, hscan]
  rw [hts_eq] at ho2 ho3 ho4 ⊢
  clear hsat hpath hch0 hch1 hs0 hs1 htbl hpre hsel hscan hts hts'
  by_cases hz : p.ratio = 0
  · simp only [hz, if_true]
    have h0 := taos_lux_scale_int 0 ts chip.taos_settings.als_gain_trim tspos tslt
      (by omega)
      (by
        have : (0 + ts / 2) / ts = 0 := Nat.div_eq_of_lt (by omega)
        rw [this]; norm_num)
      (by
        have : (0 + ts / 2) / ts = 0 := Nat.div_eq_of_lt (by omega)
        rw [this]; norm_num)
    have hdiv : (0 + ts / 2) / ts = 0 := Nat.div_eq_of_lt (by omega)
    rw [hdiv] at h0
    have hw : wrapU32 (0 + 4294967296 - 0) = 0 := by decide
    have h00 : ¬ ((0 : Nat) > 0) := by omega
    simp only [h00, if_false, hw, Option.map_some', h0]
    norm_num
  · have hg' := hg hz
    have hle' := hle hz
    have ho0' := ho0 hz
    have ho1' := ho1 hz
    have ho2' := ho2 hz
    have ho3' := ho3 hz
    have ho4' := ho4 hz
    clear hg hle ho0 ho1 ho2 ho3 ho4
    obtain ⟨hg1, hgv⟩ := gainadj_at_some _ g hg'
    obtain ⟨gn, hgn, hgpos, hgle⟩ : ∃ gn : Nat, g.ch0 = gn ∧ 0 < gn ∧ gn ≤ 120 := by
      rcases hgv with h | h | h | h
      · exact ⟨1, h, by norm_num, by norm_num⟩
      · exact ⟨8, h, by norm_num, by norm_num⟩
      · exact ⟨16, h, by norm_num, by norm_num⟩
      · exact ⟨120, h, by norm_num, by norm_num⟩
    simp only [hz, if_false, hg', hg1]
    rw [hgn] at hle' ho0' ho1' ho2' ho3' ho4' ⊢
    have hA : wrapU32 (wrapU32 (ch0 * p.ch0) + toU32 ((gn : Int) >>> (1 : Nat))) / toU32 (gn : Int)
        = (ch0 * p.ch0 + gn / 2) / gn :=
      lux_terms_nat ch0 p.ch0 gn hgpos hgle (by exact_mod_cast ho0')
    have hB : wrapU32 (wrapU32 (ch1 * p.ch1) + toU32 ((gn : Int) >>> (1 : Nat))) / toU32 (gn : Int)
        = (ch1 * p.ch1 + gn / 2) / gn :=
      lux_terms_nat ch1 p.ch1 gn hgpos hgle (by exact_mod_cast ho1')
    rw [hA, hB]
    have cA : (((ch0 : Int) * p.ch0 + (gn : Int) / 2) / gn)
        = (((ch0 * p.ch0 + gn / 2) / gn : Nat) : Int) := by
      push_cast; rfl
    have cB : (((ch1 : Int) * p.ch1 + (gn : Int) / 2) / gn)
        = (((ch1 * p.ch1 + gn / 2) / gn : Nat) : Int) := by
      push_cast; rfl
    unfold lux_formula
    unfold lux_counts at ho3' ho4' ⊢
    rw [cA, cB]
    rw [cA, cB] at hle' ho2' ho3' ho4'
    clear hA hB cA cB ho0' ho1' hg' hg1 hgv hgn
    generalize (ch0 * p.ch0 + gn / 2) / gn = A at *
    generalize (ch1 * p.ch1 + gn / 2) / gn = B at *
    have hle : B ≤ A := by exact_mod_cast hle'
    have hAB : ¬ (B > A) := by omega
    have hsub : wrapU32 (A + 4294967296 - B) = A - B := by
      unfold wrapU32; omega
    have cC : (((A : Int) - (B : Int) + (ts : Int) / 2) / (ts : Int)) / 256
        = ((((A - B + ts / 2) / ts) / 256 : Nat) : Int) := by
      push_cast [Nat.cast_sub hle]; rfl
    rw [cC] at ho3' ho4'
    have ho2n : A - B + ts / 2 < 4294967296 := by
      have e : ((A : Int) - (B : Int) + (ts : Int) / 2) = ((A - B + ts / 2 : Nat) : Int) := by
        push_cast [Nat.cast_sub hle]; rfl
      rw [e] at ho2'
      exact_mod_cast ho2'
    have hsc := taos_lux_scale_int (A - B) ts chip.taos_settings.als_gain_trim tspos tslt
      ho2n ho3' ho4'
    simp only [hAB, if_false, Option.map_some', hsub, hsc, cC]

theorem taos_get_lux_value_witness :
    lux_new_reading chip_powered bus_lux_bright ∧
    (taos_get_lux taos_device_lux chip_powered bus_lux_bright).map Prod.fst = some
      (if (14461 : Nat) = 0 then 0
       else lux_formula (1000 : Nat) (100 : Nat) (611 : Nat) (1211 : Nat) 1 4 1000) ∧
    lux_formula 1000 100 611 1211 1 4 1000 = 478 :=
  ⟨by unfold lux_new_reading; decide,
   taos_get_lux_value taos_device_lux [] (List.tail taos_device_lux)
      ⟨14461, 611, 1211⟩ chip_powered bus_lux_bright 1000 100 ⟨1, 1⟩
      (by unfold lux_new_reading; decide) (by decide) (by decide) (by decide) (by decide)
      (by decide) (by decide) (by simp) (by decide) (by decide) (by decide)
      (fun _ => by decide) (fun _ => by decide) (fun _ => by decide) (fun _ => by decide)
      (fun _ => by decide) (fun _ => by decide) (fun _ => by decide),
   by decide⟩

/-- C2 (counterexample): with the default table, the powered-on default chip and readings
`ch0 = 10000`, `ch1 = 5655`, the scan selects the entry `(18540, 352, 623)`; the
channel-1 term exceeds the channel-0 term, `taos_get_lux` returns 0, and the
specification's formula gives `-3`. -/
theorem taos_get_lux_guard_counterexample :
    lux_new_reading chip_powered bus_lux_sample ∧
    taos_lux_scan (5655 * 2 ^ 15 / 10000) taos_device_lux = some ⟨18540, 352, 623⟩ ∧
    (taos_get_lux taos_device_lux chip_powered bus_lux_sample).map Prod.fst = some 0 ∧
    lux_formula 10000 5655 352 623 1 4 1000 = -3 ∧
    (taos_get_lux taos_device_lux chip_powered bus_lux_sample).map Prod.fst
      ≠ some (lux_formula 10000 5655 352 623 1 4 1000) := by
  refine ⟨by unfold lux_new_reading; decide, by decide, by decide, by decide, by decide⟩

theorem toS32_of_range {x : Int} (h1 : -2147483648 ≤ x) (h2 : x < 2147483648) : toS32 x = x := by
  unfold toS32
  omega

theorem prox_sum_min_max_spec (data : Nat → Nat) (n : Nat) (hn : n ≤ 200)
    (hd : ∀ i, i < n → data i < 65536) :
    (prox_sum_min_max data n).1 = (((Finset.range n).sum data : Nat) : Int) ∧
    (Finset.range n).sum data ≤ n * 65535 ∧
    ∃ mn mx : Nat, (prox_sum_min_max data n).2.1 = (mn : Int) ∧
      (prox_sum_min_max data n).2.2 = (mx : Int) ∧ mn ≤ 65535 ∧ mx ≤ 65535 ∧
      (∀ i, i < n → mn ≤ data i) ∧ (∀ i, i < n → data i ≤ mx) ∧
      (n = 0 ∨ ((∃ i, i < n ∧ data i = mn) ∧ ∃ i, i < n ∧ data i = mx)) := by
  induction n with
  | zero =>
    refine ⟨by simp [prox_sum_min_max], by simp, 65535, 0, by simp [prox_sum_min_max],
      by simp [prox_sum_min_max], le_refl _, by norm_num, ?_, ?_, Or.inl rfl⟩
    · intro i hi; omega
    · intro i hi; omega
  | succ k ih =>
    obtain ⟨hs, hb, mn, mx, hmn, hmx, hmn', hmx', hlo, hhi, hex⟩ :=
      ih (by omega) (fun i hi => hd i (by omega))
    have hdk := hd k (by omega)
    have hsum : (Finset.range (k + 1)).sum data = (Finset.range k).sum data + data k :=
      Finset.sum_range_succ data k
    refine ⟨?_, ?_, ?_⟩
    · simp only [prox_sum_min_max]
      rw [hs, hsum, toS32_of_range (by omega) (by omega)]
      push_cast
      rfl
    · rw [hsum]; omega
    · simp only [prox_sum_min_max]
      rw [hmn, hmx]
      refine ⟨if data k < mn then data k else mn, if data k > mx then data k else mx,
        ?_, ?_, ?_, ?_, ?_, ?_, Or.inr ⟨?_, ?_⟩⟩
      · split_ifs with c1 c2 c2
        · rfl
        · exact absurd (by exact_mod_cast c1) c2
        · exact absurd (by exact_mod_cast c2) c1
        · rfl
      · split_ifs with c1 c2 c2
        · rfl
        · exact absurd (by exact_mod_cast c1) c2
        · exact absurd (by exact_mod_cast c2) c1
        · rfl
      · split_ifs <;> omega
      · split_ifs <;> omega
      · intro i hi
        by_cases hik : i = k
        · subst hik; split_ifs <;> omega
        · have := hlo i (by omega)
          split_ifs <;> omega
      · intro i hi
        by_cases hik : i = k
        · subst hik; split_ifs <;> omega
        · have := hhi i (by omega)
          split_ifs <;> omega
      · by_cases c : data k < mn
        · exact ⟨k, by omega, by simp [c]⟩
        · rcases hex with h0 | ⟨⟨i, hi, he⟩, _⟩
          · subst h0
            simp only [prox_sum_min_max] at hmn
            have : mn = 65535 := by exact_mod_cast hmn.symm
            exact ⟨0, by omega, by simp [c]; omega⟩
          · exact ⟨i, by omega, by simp [c, he]⟩
      · by_cases c : data k > mx
        · exact ⟨k, by omega, by simp [c]⟩
        · rcases hex with h0 | ⟨_, ⟨i, hi, he⟩⟩
          · subst h0
            simp only [prox_sum_min_max] at hmx
            have : mx = 0 := by exact_mod_cast hmx.symm
            exact ⟨0, by omega, by simp [c]; omega⟩
          · exact ⟨i, by omega, by simp [c, he]⟩

/-- C4: for `1 ≤ length ≤ 200` samples of type `u16`, `taos_prox_calculate` stores the
minimum, the maximum and `floor(sum / length)` of `data[0..length-1]`, and
`min ≤ mean ≤ max`. -/
theorem taos_prox_calculate_stats (data : Nat → Nat) (n : Nat) (h1 : 1 ≤ n) (h2 : n ≤ 200)
    (hd : ∀ i, i < n → data i < 65536) :
    ((∃ i, i < n ∧ data i = (taos_prox_calculate data n).min) ∧
      ∀ i, i < n → (taos_prox_calculate data n).min ≤ data i) ∧
    ((∃ i, i < n ∧ data i = (taos_prox_calculate data n).max) ∧
      ∀ i, i < n → data i ≤ (taos_prox_calculate data n).max) ∧
    (taos_prox_calculate data n).mean = (Finset.range n).sum data / n ∧
    (taos_prox_calculate data n).min ≤ (taos_prox_calculate data n).mean ∧
    (taos_prox_calculate data n).mean ≤ (taos_prox_calculate data n).max := by
  obtain ⟨hs, hb, mn, mx, hmn, hmx, hmn', hmx', hlo, hhi, hex⟩ :=
    prox_sum_min_max_spec data n h2 hd
  have hne : ((n : Int) = 0) = False := by simp; omega
  have hmin : (taos_prox_calculate data n).min = mn := by
    simp only [taos_prox_calculate, hne, if_false, Int.toNat_ofNat, hmn]
    exact toU16_of_le hmn'
  have hmax : (taos_prox_calculate data n).max = mx := by
    simp only [taos_prox_calculate, hne, if_false, Int.toNat_ofNat, hmx]
    exact toU16_of_le hmx'
  have hlow : n * mn ≤ (Finset.range n).sum data := by
    have := Finset.card_nsmul_le_sum (Finset.range n) data mn (fun i hi => hlo i (Finset.mem_range.mp hi))
    simpa using this
  have hupp : (Finset.range n).sum data ≤ n * mx := by
    have := Finset.sum_le_card_nsmul (Finset.range n) data mx (fun i hi => hhi i (Finset.mem_range.mp hi))
    simpa using this
  have hm1 : mn ≤ (Finset.range n).sum data / n := (Nat.le_div_iff_mul_le (by omega)).mpr (by rw [mul_comm]; exact hlow)
  have hm2 : (Finset.range n).sum data / n ≤ mx := by
    apply Nat.div_le_of_le_mul
    exact hupp
  have hmean : (taos_prox_calculate data n).mean = (Finset.range n).sum data / n := by
    simp only [taos_prox_calculate, hne, if_false, Int.toNat_ofNat, hs]
    have : Int.tdiv (((Finset.range n).sum data : Nat) : Int) (n : Int)
        = (((Finset.range n).sum data / n : Nat) : Int) := by
      rw [Int.tdiv_eq_ediv (by positivity) (by positivity)]
      rfl
    rw [this]
    exact toU16_of_le (by omega)
  rw [hmin, hmax, hmean]
  rcases hex with h0 | ⟨e1, e2⟩
  · omega
  · exact ⟨⟨e1, hlo⟩, ⟨e2, hhi⟩, rfl, hm1, hm2⟩
theorem taos_prox_calculate_stats_witness :
    ((∃ i, i < 3 ∧ prox_samples i = (taos_prox_calculate prox_samples (3 : Nat)).min) ∧
      ∀ i, i < 3 → (taos_prox_calculate prox_samples (3 : Nat)).min ≤ prox_samples i) ∧
    ((∃ i, i < 3 ∧ prox_samples i = (taos_prox_calculate prox_samples (3 : Nat)).max) ∧
      ∀ i, i < 3 → prox_samples i ≤ (taos_prox_calculate prox_samples (3 : Nat)).max) ∧
    (taos_prox_calculate prox_samples (3 : Nat)).mean = (Finset.range 3).sum prox_samples / 3 ∧
    (taos_prox_calculate prox_samples (3 : Nat)).min ≤ (taos_prox_calculate prox_samples (3 : Nat)).mean ∧
    (taos_prox_calculate prox_samples (3 : Nat)).mean ≤ (taos_prox_calculate prox_samples (3 : Nat)).max :=
  taos_prox_calculate_stats prox_samples 3 (by decide) (by decide) (by decide)

/-- C5 (failing input): for the samples `0, 4` the mean is 2 and the sum of squared
deviations is 8; `taos_prox_calculate` stores `isqrt(8) / 2 = 1` in `stddev`, while
the integer standard deviation `floor(sqrt(8 / 2))` is 2. -/
theorem taos_prox_calculate_stddev_wrong :
    (taos_prox_calculate prox_samples_spread 2).stddev = 1 ∧
    stddev_spec prox_samples_spread 2 = 2 := by
  refine ⟨by decide, ?_⟩
  have h : stddev_spec prox_samples_spread 2 = Nat.sqrt 4 := by
    simp [stddev_spec, prox_samples_spread, List.range_succ]
  rw [h]
  exact (Nat.eq_sqrt.mpr ⟨by norm_num, by norm_num⟩).symm

theorem toU8_lt (x : Int) : toU8 x < 256 := by
  unfold toU8
  omega

theorem shl8_or (hi lo : Nat) (h : lo < 256) : (hi <<< 8) ||| lo = hi * 256 + lo := by
  have := Nat.mul_add_lt_is_or (i := 8) (b := lo) (by simpa using h) hi
  rw [Nat.shiftLeft_eq, Nat.mul_comm hi (2 ^ 8), ← this]

theorem taos_prox_poll_data_ok (chip : tsl2771_chip) (bus : Nat → Int)
    (h0 : 0 ≤ bus 0) (h2 : 0 ≤ bus 2) :
    taos_prox_poll_data chip bus =
      ((if ((toU8 (bus 3) * 256 + toU8 (bus 1) : Nat) : Int) ≥ chip.taos_settings.prox_thres
          then 1 else 0),
        { chip with prox_cur_info :=
            ⟨toU8 (bus 3) * 256 + toU8 (bus 1),
             if ((toU8 (bus 3) * 256 + toU8 (bus 1) : Nat) : Int) ≥ chip.taos_settings.prox_thres
               then 1 else 0⟩ }) := by
  have e2 : taos_i2c_read (busAfter bus 2) 1 = (0, [toU8 (bus 3)]) :=
    taos_i2c_read_one (busAfter bus 2) h2
  have hb := toU8_lt (bus 1)
  have hb3 := toU8_lt (bus 3)
  unfold taos_prox_poll_data
  rw [taos_i2c_read_one bus h0, e2]
  have hq : toU8 (bus 3) * 256 + toU8 (bus 1) ≤ 65535 := by omega
  simp only [lt_self_iff_false, if_false, List.getD_cons_zero, shl8_or _ _ hb, toU16_of_le hq]

theorem busAfter_busAfter (bus : Nat → Int) (a b : Nat) :
    busAfter (busAfter bus a) b = busAfter bus (b + a) := by
  funext i
  simp [busAfter, Nat.add_assoc]

theorem taos_prox_poll_try_retries (chip : tsl2771_chip) (r : Nat) :
    ∀ (left : Nat) (bus : Nat → Int), r ≤ left →
      (∀ j, j < r → 0 ≤ bus (2 * j) ∧
        (chip.taos_settings.als_interrupt <<< 4) &&& CNTL_PROX_INT_ENBL ≠ 0 ∧
        toU8 (bus (2 * j + 1)) &&& TSL277X_STA_ADC_VALID = 0) →
      0 ≤ bus (2 * r) →
      ¬ ((chip.taos_settings.als_interrupt <<< 4) &&& CNTL_PROX_INT_ENBL ≠ 0 ∧
        toU8 (bus (2 * r + 1)) &&& TSL277X_STA_ADC_VALID = 0) →
      taos_prox_poll_try chip left bus = taos_prox_poll_data chip (busAfter bus (2 * r + 2)) := by
  induction r with
  | zero =>
    intro left bus _ _ hs hgo
    unfold taos_prox_poll_try
    rw [taos_i2c_read_one bus hs]
    simp only [lt_self_iff_false, if_false, List.getD_cons_zero]
    rw [if_neg hgo]
  | succ k ih =>
    intro left bus hl hre hs hgo
    obtain ⟨l, rfl⟩ : ∃ l, left = l + 1 := ⟨left - 1, by omega⟩
    obtain ⟨h0, hirq, hinv⟩ := hre 0 (by omega)
    unfold taos_prox_poll_try
    rw [taos_i2c_read_one bus h0]
    simp only [lt_self_iff_false, if_false, List.getD_cons_zero]
    rw [if_pos ⟨hirq, hinv⟩]
    rw [ih l (busAfter bus 2) (by omega) ?_ ?_ ?_, busAfter_busAfter]
    · congr 2
    · intro j hj
      have := hre (j + 1) (by omega)
      simp only [busAfter]
      have e1 : 2 * j + 2 = 2 * (j + 1) := by ring
      have e2 : 2 * j + 1 + 2 = 2 * (j + 1) + 1 := by ring
      rw [e1, e2]
      exact this
    · simp only [busAfter]
      have e1 : 2 * k + 2 = 2 * (k + 1) := by ring
      rw [e1]; exact hs
    · simp only [busAfter]
      have e2 : 2 * k + 1 + 2 = 2 * (k + 1) + 1 := by ring
      rw [e2]; exact hgo

/-- C6: when the proximity mutex is free, the status phase ends after `r ≤ 50` retries
(each retry: status read succeeds, proximity interrupt bit set, data not valid) and the
two data reads succeed with bytes `lo` and `hi`, `taos_prox_poll` stores
`prox_data = hi * 256 + lo`, stores 1 in `prox_event` if `prox_data ≥ prox_thres` and 0
otherwise, and returns that event value. -/
theorem taos_prox_poll_event (chip : tsl2771_chip) (bus : Nat → Int) (r : Nat)
    (hr : r ≤ CONSECUTIVE_RETRIES) (hm : chip.prox_mutex_locked = false)
    (hre : ∀ j, j < r → 0 ≤ bus (2 * j) ∧
        (chip.taos_settings.als_interrupt <<< 4) &&& CNTL_PROX_INT_ENBL ≠ 0 ∧
        toU8 (bus (2 * j + 1)) &&& TSL277X_STA_ADC_VALID = 0)
    (hs : 0 ≤ bus (2 * r))
    (hgo : ¬ ((chip.taos_settings.als_interrupt <<< 4) &&& CNTL_PROX_INT_ENBL ≠ 0 ∧
        toU8 (bus (2 * r + 1)) &&& TSL277X_STA_ADC_VALID = 0))
    (hlo : 0 ≤ bus (2 * r + 2)) (hhi : 0 ≤ bus (2 * r + 4)) :
    taos_prox_poll chip bus =
      ((if ((toU8 (bus (2 * r + 5)) * 256 + toU8 (bus (2 * r + 3)) : Nat) : Int)
            ≥ chip.taos_settings.prox_thres then 1 else 0),
        { chip with prox_cur_info :=
            ⟨toU8 (bus (2 * r + 5)) * 256 + toU8 (bus (2 * r + 3)),
             if ((toU8 (bus (2 * r + 5)) * 256 + toU8 (bus (2 * r + 3)) : Nat) : Int)
               ≥ chip.taos_settings.prox_thres then 1 else 0⟩ }) := by
  unfold taos_prox_poll
  rw [if_neg (by rw [hm]; simp)]
  have b0 : busAfter bus (2 * r + 2) 0 = bus (2 * r + 2) := by
    unfold busAfter; congr 1; omega
  have b1 : busAfter bus (2 * r + 2) 1 = bus (2 * r + 3) := by
    unfold busAfter; congr 1; omega
  have b2 : busAfter bus (2 * r + 2) 2 = bus (2 * r + 4) := by
    unfold busAfter; congr 1; omega
  have b3 : busAfter bus (2 * r + 2) 3 = bus (2 * r + 5) := by
    unfold busAfter; congr 1; omega
  rw [taos_prox_poll_try_retries chip r CONSECUTIVE_RETRIES bus hr hre hs hgo,
    taos_prox_poll_data_ok chip _ (by rw [b0]; exact hlo) (by rw [b2]; exact hhi), b1, b3]

theorem taos_prox_poll_event_witness :
    chip_powered.prox_mutex_locked = false ∧
    taos_prox_poll chip_powered bus_prox_sample =
      ((if ((toU8 (bus_prox_sample (2 * 0 + 5)) * 256 + toU8 (bus_prox_sample (2 * 0 + 3)) : Nat) : Int)
            ≥ chip_powered.taos_settings.prox_thres then 1 else 0),
        { chip_powered with prox_cur_info :=
            ⟨toU8 (bus_prox_sample (2 * 0 + 5)) * 256 + toU8 (bus_prox_sample (2 * 0 + 3)),
             if ((toU8 (bus_prox_sample (2 * 0 + 5)) * 256 + toU8 (bus_prox_sample (2 * 0 + 3)) : Nat) : Int)
               ≥ chip_powered.taos_settings.prox_thres then 1 else 0⟩ }) :=
  ⟨by decide, taos_prox_poll_event chip_powered bus_prox_sample 0 (by decide) (by decide)
    (by intro j hj; omega) (by decide) (by decide) (by decide) (by decide)⟩


theorem tdiv_bounds (a L : Int) (hL : 0 < L) (h1 : -2147483648 ≤ a) (h2 : a < 2147483648) :
    -2147483648 ≤ Int.tdiv a L ∧ Int.tdiv a L < 2147483648 := by
  by_cases ha : 0 ≤ a
  · rw [Int.tdiv_eq_ediv ha (le_of_lt hL)]
    have := Int.ediv_le_self L ha
    have := Int.ediv_nonneg ha (le_of_lt hL)
    omega
  · have hna : 0 ≤ -a := by omega
    have e : Int.tdiv a L = -(Int.tdiv (-a) L) := by
      rw [Int.neg_tdiv]; simp
    rw [e, Int.tdiv_eq_ediv hna (le_of_lt hL)]
    have := Int.ediv_le_self L hna
    have := Int.ediv_nonneg hna (le_of_lt hL)
    omega

theorem toS32_bounds (x : Int) : -2147483648 ≤ toS32 x ∧ toS32 x < 2147483648 := by
  unfold toS32
  omega

theorem taos_get_lux_settings (tbl : List taos_lux) (chip : tsl2771_chip) (bus : Nat → Int)
    (ret : Int) (chip1 : tsl2771_chip) (h : taos_get_lux tbl chip bus = some (ret, chip1)) :
    chip1.taos_settings = chip.taos_settings := by
  have hc : ∀ r c, taos_get_lux_calc tbl chip
      ((taos_i2c_read (busAfter bus 2) 1).2.getD 0 0 +
        256 * (taos_i2c_read (busAfter bus 4) 1).2.getD 0 0)
      ((taos_i2c_read (busAfter bus 6) 1).2.getD 0 0 +
        256 * (taos_i2c_read (busAfter bus 8) 1).2.getD 0 0) = some (r, c) →
      c.taos_settings = chip.taos_settings :=
    fun r c hh => (taos_get_lux_calc_spec tbl chip _ _ r c hh).2.2.2
  unfold taos_get_lux at h
  dsimp only at h
  generalize taos_get_lux_calc tbl chip _ _ = X at hc h
  iterate 9 (split at h; · (simp only [Option.some.injEq, Prod.mk.injEq] at h; rw [← h.2]))
  exact hc ret chip1 h

theorem trim_in_range (v : Int) (hr : 250 ≤ v ∧ v ≤ 4000) :
    ¬ (toU32 v < 250 ∨ toU32 v > 4000) ∧ toS32 ((toU32 v : Nat) : Int) = v := by
  have hu : toU32 v = v.toNat := by unfold toU32; omega
  rw [hu]
  constructor
  · omega
  · unfold toS32; omega

theorem trim_out_of_range (v : Int) (hv1 : -2147483648 ≤ v) (hv2 : v < 2147483648)
    (hr : ¬ (250 ≤ v ∧ v ≤ 4000)) : toU32 v < 250 ∨ toU32 v > 4000 := by
  unfold toU32; omega

/-- What `taos_als_calibrate` does once the checks pass and `taos_get_lux` returns a
positive `L`, with the product `als_cal_target * als_gain_trim` reduced to a 32-bit
`int` as the C multiplication does. -/
theorem taos_als_calibrate_int32 (tbl : List taos_lux) (chip : tsl2771_chip) (bus : Nat → Int)
    (L : Int) (chip1 : tsl2771_chip)
    (h0 : 0 ≤ bus 0)
    (h1 : toU8 (bus 1) &&& (TSL277X_CNTL_ADC_ENBL ||| TSL277X_CNTL_PWR_ON)
      = (TSL277X_CNTL_ADC_ENBL ||| TSL277X_CNTL_PWR_ON))
    (h2 : 0 ≤ bus 2)
    (h3 : toU8 (bus 3) &&& TSL277X_STA_ADC_VALID = TSL277X_STA_ADC_VALID)
    (hL : taos_get_lux tbl chip (busAfter bus 4) = some (L, chip1)) (hpos : 0 < L) :
    chip1.taos_settings.als_gain_trim = chip.taos_settings.als_gain_trim ∧
    taos_als_calibrate tbl chip bus = some
      (if 250 ≤ Int.tdiv (toS32 (chip.taos_settings.als_cal_target
              * chip.taos_settings.als_gain_trim)) L ∧
          Int.tdiv (toS32 (chip.taos_settings.als_cal_target
              * chip.taos_settings.als_gain_trim)) L ≤ 4000
       then
        (Int.tdiv (toS32 (chip.taos_settings.als_cal_target
              * chip.taos_settings.als_gain_trim)) L,
          { chip1 with taos_settings := { chip1.taos_settings with
              als_gain_trim := Int.tdiv (toS32 (chip.taos_settings.als_cal_target
                * chip.taos_settings.als_gain_trim)) L } })
       else (-ERANGE, chip1)) := by
  have hset := taos_get_lux_settings tbl chip _ L chip1 hL
  refine ⟨by rw [hset], ?_⟩
  unfold taos_als_calibrate
  rw [if_neg (not_lt.mpr h0), if_neg (not_not.mpr h1), if_neg (not_lt.mpr h2),
    if_neg (not_not.mpr h3), hL]
  simp only
  rw [if_neg (not_lt.mpr (le_of_lt hpos)), if_neg (by omega), hset]
  obtain ⟨hb1, hb2⟩ := toS32_bounds (chip.taos_settings.als_cal_target
    * chip.taos_settings.als_gain_trim)
  obtain ⟨hv1, hv2⟩ := tdiv_bounds _ L hpos hb1 hb2
  generalize Int.tdiv (toS32 (chip.taos_settings.als_cal_target
    * chip.taos_settings.als_gain_trim)) L = v at hv1 hv2 ⊢
  by_cases hr : 250 ≤ v ∧ v ≤ 4000
  · obtain ⟨hn, hs⟩ := trim_in_range v hr
    rw [if_pos hr, if_neg hn, hs]
  · rw [if_neg hr, if_pos (trim_out_of_range v hv1 hv2 hr)]

/-- C7 (amended): when the control and status checks pass, `taos_get_lux` returns a
positive lux `L` and the product `als_cal_target * als_gain_trim` fits a 32-bit `int`,
`taos_als_calibrate` computes `v = (als_cal_target * als_gain_trim) / L` (truncating
division); if `250 ≤ v ≤ 4000` it stores `v` in `als_gain_trim` and returns `v`,
otherwise it returns `-ERANGE` and `als_gain_trim` keeps the value it had. -/
theorem taos_als_calibrate_trim (tbl : List taos_lux) (chip : tsl2771_chip) (bus : Nat → Int)
    (L : Int) (chip1 : tsl2771_chip)
    (h0 : 0 ≤ bus 0)
    (h1 : toU8 (bus 1) &&& (TSL277X_CNTL_ADC_ENBL ||| TSL277X_CNTL_PWR_ON)
      = (TSL277X_CNTL_ADC_ENBL ||| TSL277X_CNTL_PWR_ON))
    (h2 : 0 ≤ bus 2)
    (h3 : toU8 (bus 3) &&& TSL277X_STA_ADC_VALID = TSL277X_STA_ADC_VALID)
    (hL : taos_get_lux tbl chip (busAfter bus 4) = some (L, chip1)) (hpos : 0 < L)
    (hfit1 : -2147483648 ≤ chip.taos_settings.als_cal_target * chip.taos_settings.als_gain_trim)
    (hfit2 : chip.taos_settings.als_cal_target * chip.taos_settings.als_gain_trim < 2147483648) :
    chip1.taos_settings.als_gain_trim = chip.taos_settings.als_gain_trim ∧
    taos_als_calibrate tbl chip bus = some
      (if 250 ≤ Int.tdiv (chip.taos_settings.als_cal_target
              * chip.taos_settings.als_gain_trim) L ∧
          Int.tdiv (chip.taos_settings.als_cal_target
              * chip.taos_settings.als_gain_trim) L ≤ 4000
       then
        (Int.tdiv (chip.taos_settings.als_cal_target * chip.taos_settings.als_gain_trim) L,
          { chip1 with taos_settings := { chip1.taos_settings with
              als_gain_trim := Int.tdiv (chip.taos_settings.als_cal_target
                * chip.taos_settings.als_gain_trim) L } })
       else (-ERANGE, chip1)) := by
  have h := taos_als_calibrate_int32 tbl chip bus L chip1 h0 h1 h2 h3 hL hpos
  rw [toS32_of_range hfit1 hfit2] at h
  exact h

theorem taos_als_calibrate_trim_witness :
    taos_get_lux taos_device_lux chip_powered (busAfter bus_calibrate_sample 4)
      = some (478, chip_after_lux) ∧
    chip_powered.taos_settings.als_cal_target * chip_powered.taos_settings.als_gain_trim
      = 130000 ∧
    (chip_after_lux.taos_settings.als_gain_trim = chip_powered.taos_settings.als_gain_trim ∧
    taos_als_calibrate taos_device_lux chip_powered bus_calibrate_sample = some
      (if 250 ≤ Int.tdiv (chip_powered.taos_settings.als_cal_target
              * chip_powered.taos_settings.als_gain_trim) 478 ∧
          Int.tdiv (chip_powered.taos_settings.als_cal_target
              * chip_powered.taos_settings.als_gain_trim) 478 ≤ 4000
       then
        (Int.tdiv (chip_powered.taos_settings.als_cal_target
              * chip_powered.taos_settings.als_gain_trim) 478,
          { chip_after_lux with taos_settings := { chip_after_lux.taos_settings with
              als_gain_trim := Int.tdiv (chip_powered.taos_settings.als_cal_target
                * chip_powered.taos_settings.als_gain_trim) 478 } })
       else (-ERANGE, chip_after_lux))) :=
  ⟨by decide, by decide,
    taos_als_calibrate_trim taos_device_lux chip_powered bus_calibrate_sample 478
      chip_after_lux (by decide) (by decide) (by decide) (by decide) (by decide) (by decide)
      (by decide) (by decide)⟩

/-- C7 (counterexample): with `als_cal_target = 4295168` (a value
`taos_als_cal_target_store` accepts), `als_gain_trim = 1000` and a reading of
`L = 478` lux, the 32-bit product is `200704` and `taos_als_calibrate` stores and
returns `419`, while `(als_cal_target * als_gain_trim) / L = 8985707` lies outside
`250..4000`. -/
theorem taos_als_calibrate_overflow_counterexample :
    taos_get_lux taos_device_lux chip_big_target (busAfter bus_calibrate_sample 4)
      = some (478, chip_big_target_after_lux) ∧
    (taos_als_calibrate taos_device_lux chip_big_target bus_calibrate_sample).map Prod.fst
      = some 419 ∧
    (taos_als_calibrate taos_device_lux chip_big_target bus_calibrate_sample).map
      (fun r => r.2.taos_settings.als_gain_trim) = some 419 ∧
    Int.tdiv (chip_big_target.taos_settings.als_cal_target
      * chip_big_target.taos_settings.als_gain_trim) 478 = 8985707 ∧
    ¬ (Int.tdiv (chip_big_target.taos_settings.als_cal_target
      * chip_big_target.taos_settings.als_gain_trim) 478 ≤ 4000) ∧
    (taos_als_calibrate taos_device_lux chip_big_target bus_calibrate_sample).map Prod.fst
      ≠ some (-ERANGE) := by
  refine ⟨by decide, by decide, by decide, by decide, by decide, by decide⟩

theorem int_lor_eq_zero (a b : Int) : Int.lor a b = 0 ↔ a = 0 ∧ b = 0 := by
  cases a with
  | ofNat m =>
    cases b with
    | ofNat k =>
      simp only [Int.lor, Int.ofNat_eq_coe]
      constructor
      · intro h
        have h' : m ||| k = 0 := by exact_mod_cast h
        have hm : m = 0 := by
          apply Nat.eq_of_testBit_eq
          intro i
          have := congrArg (fun x => Nat.testBit x i) h'
          simp only [Nat.testBit_or, Nat.zero_testBit, Bool.or_eq_false_iff] at this
          simp [this.1]
        have hk : k = 0 := by
          apply Nat.eq_of_testBit_eq
          intro i
          have := congrArg (fun x => Nat.testBit x i) h'
          simp only [Nat.testBit_or, Nat.zero_testBit, Bool.or_eq_false_iff] at this
          simp [this.2]
        subst hm; subst hk; simp
      · rintro ⟨h1, h2⟩
        have hm : m = 0 := by exact_mod_cast h1
        have hk : k = 0 := by exact_mod_cast h2
        subst hm; subst hk; rfl
    | negSucc k =>
      simp only [Int.lor]
      constructor
      · intro h; exact absurd h (by simp)
      · rintro ⟨_, h2⟩; exact absurd h2 (by simp)
  | negSucc m =>
    cases b with
    | ofNat k =>
      simp only [Int.lor]
      constructor
      · intro h; exact absurd h (by simp)
      · rintro ⟨h1, _⟩; exact absurd h1 (by simp)
    | negSucc k =>
      simp only [Int.lor]
      constructor
      · intro h; exact absurd h (by simp)
      · rintro ⟨h1, _⟩; exact absurd h1 (by simp)

theorem lux_of_words_append (k : Nat) : ∀ (ws zs : List Nat), ws.length = 3 * k →
    lux_of_words (ws ++ zs) = lux_of_words ws ++ lux_of_words zs := by
  induction k with
  | zero =>
    intro ws zs h
    have : ws = [] := List.length_eq_zero.mp (by simpa using h)
    subst this
    simp [lux_of_words]
  | succ j ih =>
    intro ws zs h
    match ws, h with
    | a :: b :: c :: rest, h =>
      have hr : rest.length = 3 * j := by simp at h; omega
      have e := ih rest zs hr
      simp only [List.cons_append, lux_of_words, List.append_eq] at e ⊢
      rw [e]
    | [], h => simp at h
    | [_], h => simp at h; omega
    | [_, _], h => simp at h; omega

theorem lux_of_words_zeros (j : Nat) :
    lux_of_words (List.replicate (3 * j) 0) = List.replicate j ⟨0, 0, 0⟩ := by
  induction j with
  | zero => simp [lux_of_words]
  | succ i ih =>
    have : 3 * (i + 1) = (3 * i + 2) + 1 := by ring
    rw [this, List.replicate_succ, List.replicate_succ, List.replicate_succ,
      List.replicate_succ (n := i)]
    simp only [lux_of_words, ih]

theorem lux_table_copy_eq (n : Int) (vals : List Int) (k : Nat) (hk : n.toNat = 3 * k)
    (hk11 : k ≤ 11) (hlen : n.toNat ≤ vals.length) :
    lux_table_copy (n :: vals) n.toNat
      = lux_of_words ((vals.take n.toNat).map toU32) ++ List.replicate (11 - k) ⟨0, 0, 0⟩ := by
  unfold lux_table_copy
  simp only [List.drop_succ_cons, List.drop_zero, List.length_map, List.length_take]
  have hmin : min n.toNat vals.length = 3 * k := by omega
  rw [hmin, lux_of_words_append k _ _ (by simp [hmin])]
  have : 33 - 3 * k = 3 * (11 - k) := by omega
  rw [this, lux_of_words_zeros]

/-- C8: for a parsed list `value = n :: vals` holding its `n` integers,
`taos_luxtable_store` accepts iff `n` is a multiple of 3, `6 ≤ n ≤ 30` and
`value[n-2]`, `value[n-1]`, `value[n]` are all 0.  On rejection it returns `-EINVAL`
and leaves the table and the chip unchanged; on acceptance it returns `len` and the
table holds the `n / 3` triples in order followed by all-zero entries. -/
theorem taos_luxtable_store_spec (tbl : List taos_lux) (chip : tsl2771_chip) (n : Int)
    (vals : List Int) (len : Int) (bus : Nat → Int) (reg_val0 : Nat)
    (hlen : n.toNat ≤ vals.length) :
    taos_luxtable_store tbl chip (n :: vals) len bus reg_val0 =
      if n % 3 = 0 ∧ 6 ≤ n ∧ n ≤ 30 ∧ (n :: vals).getD (n - 2).toNat 0 = 0 ∧
          (n :: vals).getD (n - 1).toNat 0 = 0 ∧ (n :: vals).getD n.toNat 0 = 0
      then some (len,
        lux_of_words ((vals.take n.toNat).map toU32)
          ++ List.replicate (11 - n.toNat / 3) ⟨0, 0, 0⟩,
        (taos_chip_on
          (if chip.taos_chip_status = TSL277X_CHIP_WORKING
            then ((taos_chip_off chip bus).2, busAfter bus 1) else (chip, bus)).1
          (if chip.taos_chip_status = TSL277X_CHIP_WORKING
            then ((taos_chip_off chip bus).2, busAfter bus 1) else (chip, bus)).2
          reg_val0).2)
      else some (-EINVAL, tbl, chip) := by
  unfold taos_luxtable_store
  simp only [List.getElem?_cons_zero]
  by_cases hr : 6 ≤ n ∧ n ≤ 30 ∧ n % 3 = 0
  · obtain ⟨h6, h30, h3⟩ := hr
    have ht : Int.tmod n 3 = 0 := by
      rw [Int.tmod_eq_emod (by omega) (by norm_num)]; exact h3
    rw [if_neg (by rw [ht]; omega)]
    obtain ⟨a, ha⟩ : ∃ a, (n :: vals)[(n - 2).toNat]? = some a :=
      ⟨_, List.getElem?_eq_getElem (by simp; omega)⟩
    obtain ⟨b, hb⟩ : ∃ b, (n :: vals)[(n - 1).toNat]? = some b :=
      ⟨_, List.getElem?_eq_getElem (by simp; omega)⟩
    obtain ⟨c, hc⟩ : ∃ c, (n :: vals)[n.toNat]? = some c :=
      ⟨_, List.getElem?_eq_getElem (by simp; omega)⟩
    have ga : (n :: vals).getD (n - 2).toNat 0 = a := by
      rw [List.getD_eq_getElem?_getD, ha]; rfl
    have gb : (n :: vals).getD (n - 1).toNat 0 = b := by
      rw [List.getD_eq_getElem?_getD, hb]; rfl
    have gc : (n :: vals).getD n.toNat 0 = c := by
      rw [List.getD_eq_getElem?_getD, hc]; rfl
    rw [ga, gb, gc, ha, hb, hc]
    simp only
    by_cases hz : a = 0 ∧ b = 0 ∧ c = 0
    · obtain ⟨rfl, rfl, rfl⟩ := hz
      have hl : ¬ (Int.lor (Int.lor 0 0) 0 ≠ 0) := by decide
      have hcond : n % 3 = 0 ∧ 6 ≤ n ∧ n ≤ 30 ∧ (0 : Int) = 0 ∧ (0 : Int) = 0 ∧ (0 : Int) = 0 :=
        ⟨h3, h6, h30, rfl, rfl, rfl⟩
      rw [if_neg hl, if_pos hcond]
      obtain ⟨k, hk⟩ : ∃ k, n.toNat = 3 * k := ⟨n.toNat / 3, by omega⟩
      rw [lux_table_copy_eq n vals k hk (by omega) hlen]
      have : n.toNat / 3 = k := by omega
      rw [this]
    · have hl : Int.lor (Int.lor a b) c ≠ 0 := by
        intro h
        rw [int_lor_eq_zero, int_lor_eq_zero] at h
        exact hz ⟨h.1.1, h.1.2, h.2⟩
      have hcond : ¬ (n % 3 = 0 ∧ 6 ≤ n ∧ n ≤ 30 ∧ a = 0 ∧ b = 0 ∧ c = 0) := by
        rintro ⟨_, _, _, h1, h2, h3⟩
        exact hz ⟨h1, h2, h3⟩
      rw [if_pos hl, if_neg hcond]
  · have hrej : Int.tmod n 3 ≠ 0 ∨ n < 6 ∨ n > (11 - 1) * 3 := by
      by_cases h6 : n < 6
      · exact Or.inr (Or.inl h6)
      · by_cases h30 : n > 30
        · exact Or.inr (Or.inr (by omega))
        · left
          rw [Int.tmod_eq_emod (by omega) (by norm_num)]
          intro h; exact hr ⟨by omega, by omega, h⟩
    have hcond : ¬ (n % 3 = 0 ∧ 6 ≤ n ∧ n ≤ 30 ∧ (n :: vals).getD (n - 2).toNat 0 = 0 ∧
          (n :: vals).getD (n - 1).toNat 0 = 0 ∧ (n :: vals).getD n.toNat 0 = 0) := by
      rintro ⟨h3, h6, h30, _⟩
      exact hr ⟨h6, h30, h3⟩
    rw [if_pos hrej, if_neg hcond]

theorem taos_luxtable_store_spec_witness :
    (6 : Int).toNat ≤ [100, 2, 3, 0, 0, 0].length ∧
    taos_luxtable_store taos_device_lux chip_probed (6 :: [100, 2, 3, 0, 0, 0]) 14 (fun _ => 0) 0
      = some (14, [⟨100, 2, 3⟩, ⟨0, 0, 0⟩] ++ List.replicate 9 ⟨0, 0, 0⟩,
          (taos_chip_on chip_probed (fun _ => 0) 0).2) := by
  refine ⟨by decide, ?_⟩
  have h := taos_luxtable_store_spec taos_device_lux chip_probed 6 [100, 2, 3, 0, 0, 0] 14
    (fun _ => 0) 0 (by decide)
  rw [h]
  decide

/-- C9 (failing input): ten segments and the terminating triple are 33 integers; a
`value[]` whose count is 33 is rejected with `-EINVAL` by the bound
`n > (ARRAY_SIZE(taos_device_lux) - 1) * 3`, whatever the entries are. -/
theorem taos_luxtable_store_ten_segments_rejected (tbl : List taos_lux) (chip : tsl2771_chip)
    (vals : List Int) (len : Int) (bus : Nat → Int) (reg_val0 : Nat) :
    taos_luxtable_store tbl chip (3 * (10 + 1) :: vals) len bus reg_val0
      = some (-EINVAL, tbl, chip) := by
  unfold taos_luxtable_store
  simp


theorem als_time_available_iff (v : Nat) :
    v ∈ taos_als_time_available ↔ (50 ≤ v ∧ v ≤ 650 ∧ v % 50 = 0) := by
  simp only [taos_als_time_available, List.mem_cons, List.mem_singleton, List.not_mem_nil,
    or_false]
  omega

theorem taos_als_time_store_some (chip : tsl2771_chip) (v : Nat) (len : Int) :
    taos_als_time_store chip (some v) len =
      if v ∈ taos_als_time_available then
        (len, { chip with taos_settings := { chip.taos_settings with als_time := (v : Int) } })
      else (-EINVAL, chip) := by
  unfold taos_als_time_store
  by_cases h : v ∈ taos_als_time_available
  · have h' := (als_time_available_iff v).mp h
    rw [if_pos h]
    simp only
    rw [if_neg (by omega), if_neg (by omega), toS32_of_range (by omega) (by omega)]
  · rw [if_neg h]
    have h' := fun c => h ((als_time_available_iff v).mpr c)
    simp only
    by_cases hr : v < 50 ∨ v > 650
    · rw [if_pos hr]
    · rw [if_neg hr, if_pos]
      intro hm
      exact h' ⟨by omega, by omega, hm⟩

theorem taos_als_time_store_keeps (chip : tsl2771_chip) (p : Option Nat) (len : Int)
    (h : ∃ m ∈ taos_als_time_available, chip.taos_settings.als_time = (m : Int)) :
    ∃ m ∈ taos_als_time_available,
      (taos_als_time_store chip p len).2.taos_settings.als_time = (m : Int) := by
  cases p with
  | none => exact h
  | some v =>
    rw [taos_als_time_store_some]
    by_cases hv : v ∈ taos_als_time_available
    · rw [if_pos hv]; exact ⟨v, hv, rfl⟩
    · rw [if_neg hv]; exact h

/-- C10: `taos_als_time_store` accepts a value iff it is one of the advertised
integration times `50, 100, ..., 650`; every other value (and a parse error) returns
`-EINVAL` and leaves the chip unchanged; so after `taos_defaults` and any sequence of
stores `als_time` is one of the advertised values. -/
theorem taos_als_time_store_spec (chip : tsl2771_chip) (v : Nat) (len : Int)
    (ops : List (Option Nat × Int)) :
    taos_als_time_store chip (some v) len =
      (if v ∈ taos_als_time_available then
        (len, { chip with taos_settings := { chip.taos_settings with als_time := (v : Int) } })
      else (-EINVAL, chip)) ∧
    taos_als_time_store chip none len = (-EINVAL, chip) ∧
    (v ∈ taos_als_time_available ↔ (50 ≤ v ∧ v ≤ 650 ∧ v % 50 = 0)) ∧
    (taos_defaults chip).taos_settings.als_time = 200 ∧
    ∃ m ∈ taos_als_time_available,
      (ops.foldl (fun c op => (taos_als_time_store c op.1 op.2).2)
        (taos_defaults chip)).taos_settings.als_time = (m : Int) := by
  refine ⟨taos_als_time_store_some chip v len, rfl, als_time_available_iff v, rfl, ?_⟩
  have key : ∀ (l : List (Option Nat × Int)) (c : tsl2771_chip),
      (∃ m ∈ taos_als_time_available, c.taos_settings.als_time = (m : Int)) →
      ∃ m ∈ taos_als_time_available,
        (l.foldl (fun c op => (taos_als_time_store c op.1 op.2).2) c).taos_settings.als_time
          = (m : Int) := by
    intro l
    induction l with
    | nil => intro c hc; exact hc
    | cons op rest ih =>
      intro c hc
      exact ih _ (taos_als_time_store_keeps c op.1 op.2 hc)
  exact key ops _ ⟨200, by decide, rfl⟩

/-- C11 (failing input): `taos_gain_store` accepts the advertised value 111 and selects
index 3, whose `tsl2771_gainadj` entry is 120, so `taos_gain_show` reports 120. -/
theorem taos_gain_store_111_shows_120 (chip : tsl2771_chip) (len : Int) :
    111 ∈ taos_gain_available ∧
    taos_gain_store chip (some 111) len =
      (len, { chip with taos_settings := { chip.taos_settings with als_gain := 3 } }) ∧
    taos_gain_show (taos_gain_store chip (some 111) len).2 = some 120 := by
  refine ⟨by decide, rfl, rfl⟩

theorem interrupt_bits (x : Nat) :
    ((x ||| 0x10) &&& 0x10 ≠ 0) ∧ ((x &&& 0x20) &&& 0x10 = 0) ∧
    ((x ||| 0x20) &&& 0x20 ≠ 0) ∧ ((x &&& 0x10) &&& 0x20 = 0) ∧
    ((x ||| 0x10) &&& 0x20 = x &&& 0x20) ∧ ((x &&& 0x20) &&& 0x20 = x &&& 0x20) ∧
    ((x ||| 0x20) &&& 0x10 = x &&& 0x10) ∧ ((x &&& 0x10) &&& 0x10 = x &&& 0x10) := by
  have t : ∀ a b : Nat, (∀ i, a.testBit i = b.testBit i) → a = b :=
    fun a b h => Nat.eq_of_testBit_eq h
  have b16 : ∀ i, Nat.testBit 16 i = decide (i = 4) := by
    intro i
    have : (16 : Nat) = 2 ^ 4 := by norm_num
    rw [this, Nat.testBit_two_pow]
    by_cases h : i = 4 <;> simp [h, eq_comm]
  have b32 : ∀ i, Nat.testBit 32 i = decide (i = 5) := by
    intro i
    have : (32 : Nat) = 2 ^ 5 := by norm_num
    rw [this, Nat.testBit_two_pow]
    by_cases h : i = 5 <;> simp [h, eq_comm]
  refine ⟨?_, ?_, ?_, ?_, ?_, ?_, ?_, ?_⟩
  · intro h
    have := congrArg (fun y => Nat.testBit y 4) h
    simp [b16] at this
  · apply t; intro i
    simp only [Nat.testBit_and, b16, b32, Nat.zero_testBit]
    by_cases h : i = 4 <;> simp [h]
  · intro h
    have := congrArg (fun y => Nat.testBit y 5) h
    simp [b32] at this
  · apply t; intro i
    simp only [Nat.testBit_and, b16, b32, Nat.zero_testBit]
    by_cases h : i = 5 <;> simp [h]
  · apply t; intro i
    simp only [Nat.testBit_and, Nat.testBit_or, b16, b32]
    by_cases h : i = 5 <;> simp [h]
  · apply t; intro i
    simp only [Nat.testBit_and, b32]
    by_cases h : i = 5 <;> simp [h]
  · apply t; intro i
    simp only [Nat.testBit_and, Nat.testBit_or, b16, b32]
    by_cases h : i = 4 <;> simp [h]
  · apply t; intro i
    simp only [Nat.testBit_and, b16]
    by_cases h : i = 4 <;> simp [h]

/-- C12: `als_interrupt` encodes `0x00` = none, `0x10` = ALS, `0x20` = proximity,
`0x30` = both.  For `v` in `{0, 1}`, `taos_als_interrupt_store(v)` succeeds, makes
`taos_als_interrupt_show` report `v` and does not change what
`taos_prox_interrupt_show` reports, and symmetrically for
`taos_prox_interrupt_store`; a value greater than 1 (written `w + 2`) is rejected with
`-EINVAL` and changes nothing. -/
theorem taos_interrupt_store_spec (chip : tsl2771_chip) (len : Int) (w : Nat) :
    ((taos_als_interrupt_store chip (some 0) len).1 = len ∧
      taos_als_interrupt_show (taos_als_interrupt_store chip (some 0) len).2 = 0 ∧
      taos_prox_interrupt_show (taos_als_interrupt_store chip (some 0) len).2
        = taos_prox_interrupt_show chip) ∧
    ((taos_als_interrupt_store chip (some 1) len).1 = len ∧
      taos_als_interrupt_show (taos_als_interrupt_store chip (some 1) len).2 = 1 ∧
      taos_prox_interrupt_show (taos_als_interrupt_store chip (some 1) len).2
        = taos_prox_interrupt_show chip) ∧
    ((taos_prox_interrupt_store chip (some 0) len).1 = len ∧
      taos_prox_interrupt_show (taos_prox_interrupt_store chip (some 0) len).2 = 0 ∧
      taos_als_interrupt_show (taos_prox_interrupt_store chip (some 0) len).2
        = taos_als_interrupt_show chip) ∧
    ((taos_prox_interrupt_store chip (some 1) len).1 = len ∧
      taos_prox_interrupt_show (taos_prox_interrupt_store chip (some 1) len).2 = 1 ∧
      taos_als_interrupt_show (taos_prox_interrupt_store chip (some 1) len).2
        = taos_als_interrupt_show chip) ∧
    taos_als_interrupt_store chip (some (w + 2)) len = (-EINVAL, chip) ∧
    taos_prox_interrupt_store chip (some (w + 2)) len = (-EINVAL, chip) ∧
    (taos_defaults chip).taos_settings.als_interrupt = 0x10 := by
  obtain ⟨a1, a0, p1, p0, ap1, ap0, pa1, pa0⟩ := interrupt_bits chip.taos_settings.als_interrupt
  refine ⟨⟨rfl, ?_, ?_⟩, ⟨rfl, ?_, ?_⟩, ⟨rfl, ?_, ?_⟩, ⟨rfl, ?_, ?_⟩, ?_, ?_, rfl⟩
  · simp only [taos_als_interrupt_store, taos_als_interrupt_show]
    simp [a0]
  · simp only [taos_als_interrupt_store, taos_prox_interrupt_show]
    simp [ap0]
  · simp only [taos_als_interrupt_store, taos_als_interrupt_show]
    simp [a1]
  · simp only [taos_als_interrupt_store, taos_prox_interrupt_show]
    simp [ap1]
  · simp only [taos_prox_interrupt_store, taos_prox_interrupt_show]
    simp [p0]
  · simp only [taos_prox_interrupt_store, taos_als_interrupt_show]
    simp [pa0]
  · simp only [taos_prox_interrupt_store, taos_prox_interrupt_show]
    simp [p1]
  · simp only [taos_prox_interrupt_store, taos_als_interrupt_show]
    simp [pa1]
  · simp [taos_als_interrupt_store]
  · simp [taos_prox_interrupt_store]

end Tsl2771

namespace USmd


/-- C13: `gsmd_connect` returns `-EINVAL` and changes nothing when `portno ≥ n_ports`
or `gser` is NULL; if enabling the IN or the OUT endpoint fails it returns that error,
leaves `port->port_usb` NULL and does not queue `connect_work`; it returns 0 only when
both `usb_ep_enable` calls returned 0, and then `port->port_usb` is `gser`, both
endpoints' `driver_data` point to the port and `connect_work` is queued. -/
theorem gsmd_connect_spec (ports : List gsmd_port) (gser : Option gserial) (portno : Nat)
    (en_in en_out : Int) :
    ((portno ≥ ports.length ∨ gser = none) →
      gsmd_connect ports gser portno en_in en_out = (-EINVAL, ports, gser)) ∧
    (∀ g port, gser = some g → ports[portno]? = some port →
      ((en_in ≠ 0 →
          (gsmd_connect ports gser portno en_in en_out).1 = en_in ∧
          (gsmd_connect ports gser portno en_in en_out).2.1[portno]?
            = some { port with port_usb := none }) ∧
       (en_in = 0 → en_out ≠ 0 →
          (gsmd_connect ports gser portno en_in en_out).1 = en_out ∧
          (gsmd_connect ports gser portno en_in en_out).2.1[portno]?
            = some { port with port_usb := none }) ∧
       (en_in = 0 → en_out = 0 →
          (gsmd_connect ports gser portno en_in en_out).1 = 0 ∧
          (gsmd_connect ports gser portno en_in en_out).2.1[portno]?
            = some { port with port_usb := some g.id, connect_work_queued := true } ∧
          (gsmd_connect ports gser portno en_in en_out).2.2
            = some { g with notify_modem_set := true, in_driver_data := some portno,
                            out_driver_data := some portno }))) ∧
    ((gsmd_connect ports gser portno en_in en_out).1 = 0 →
      en_in = 0 ∧ en_out = 0 ∧ portno < ports.length ∧ gser ≠ none) := by
  refine ⟨?_, ?_, ?_⟩
  · rintro (h | h)
    · unfold gsmd_connect
      rw [if_pos h]
    · subst h
      unfold gsmd_connect
      split <;> rfl
  · intro g port hg hp
    subst hg
    have hlt : portno < ports.length := by
      by_contra hc
      rw [List.getElem?_eq_none (by omega)] at hp
      exact absurd hp (by simp)
    have hnot : ¬ portno ≥ ports.length := by omega
    refine ⟨?_, ?_, ?_⟩
    · intro hin
      unfold gsmd_connect
      rw [if_neg hnot]
      simp only [hp]
      rw [if_pos hin]
      exact ⟨rfl, List.getElem?_set_eq_of_lt _ hlt⟩
    · intro hin hout
      unfold gsmd_connect
      rw [if_neg hnot]
      simp only [hp]
      rw [if_neg (not_not.mpr hin), if_pos hout]
      exact ⟨rfl, List.getElem?_set_eq_of_lt _ hlt⟩
    · intro hin hout
      unfold gsmd_connect
      rw [if_neg hnot]
      simp only [hp]
      rw [if_neg (not_not.mpr hin), if_neg (not_not.mpr hout)]
      exact ⟨rfl, List.getElem?_set_eq_of_lt _ hlt, rfl⟩
  · intro h
    unfold gsmd_connect at h
    have hE : (-EINVAL : Int) ≠ 0 := by decide
    split at h
    · exact absurd h hE
    · rename_i hlen
      split at h
      · exact absurd h hE
      · split at h
        · exact absurd h hE
        · split at h
          · rename_i hin
            exact absurd h hin
          · rename_i hin
            split at h
            · rename_i hout
              exact absurd h hout
            · rename_i hout
              exact ⟨not_not.mp hin, not_not.mp hout, by omega, by simp⟩

theorem gsmd_connect_spec_witness :
    gsmd_connect [gsmd_port_alloc 0, gsmd_port_alloc 1] (some ⟨100, none, none, false⟩) 1 0 0
      = (0, [gsmd_port_alloc 0,
             { gsmd_port_alloc 1 with port_usb := some 100, connect_work_queued := true }],
          some ⟨100, some 1, some 1, true⟩) ∧
    (gsmd_connect [gsmd_port_alloc 0, gsmd_port_alloc 1] (some ⟨100, none, none, false⟩) 1 0 0).1
      = 0 ∧
    (gsmd_connect [gsmd_port_alloc 0, gsmd_port_alloc 1] (some ⟨100, none, none, false⟩) 1 (-19) 0).1
      = -19 ∧
    (gsmd_connect [gsmd_port_alloc 0, gsmd_port_alloc 1] none 1 0 0).1 = -EINVAL :=
  ⟨by decide,
   ((gsmd_connect_spec [gsmd_port_alloc 0, gsmd_port_alloc 1] (some ⟨100, none, none, false⟩)
      1 0 0).2.1 ⟨100, none, none, false⟩ (gsmd_port_alloc 1) rfl rfl).2.2 rfl rfl |>.1,
   ((gsmd_connect_spec [gsmd_port_alloc 0, gsmd_port_alloc 1] (some ⟨100, none, none, false⟩)
      1 (-19) 0).2.1 ⟨100, none, none, false⟩ (gsmd_port_alloc 1) rfl rfl).1 (by decide) |>.1,
   by rw [(gsmd_connect_spec [gsmd_port_alloc 0, gsmd_port_alloc 1] none 1 0 0).1
      (Or.inr rfl)]⟩

/-- C14 (failing input): two completed requests `1 2 3 4` and `5 6 7 8` are queued.
The first `gsmd_rx_push` finds room for 2 bytes: `1 2` is written and `n_read`
becomes 2.  The second finds room for everything: it writes `3 4`, recycles the first
request, and then, `n_read` still being 2, writes only `7 8` of the second request and
recycles it.  SMD has received `1 2 3 4 7 8`; the bytes `5 6` are lost. -/
theorem gsmd_rx_push_loses_bytes :
    (gsmd_rx_push rx_two_packets (fun _ => (2, 2)) (fun _ => 0)).smd_written = [1, 2] ∧
    (gsmd_rx_push rx_two_packets (fun _ => (2, 2)) (fun _ => 0)).port.n_read = 2 ∧
    (gsmd_rx_push (gsmd_rx_push rx_two_packets (fun _ => (2, 2)) (fun _ => 0))
      (fun _ => (100, 100)) (fun _ => 0)).port.read_queue = [] ∧
    (gsmd_rx_push (gsmd_rx_push rx_two_packets (fun _ => (2, 2)) (fun _ => 0))
      (fun _ => (100, 100)) (fun _ => 0)).port.n_read = 2 ∧
    (gsmd_rx_push (gsmd_rx_push rx_two_packets (fun _ => (2, 2)) (fun _ => 0))
      (fun _ => (100, 100)) (fun _ => 0)).smd_written = [1, 2, 3, 4, 7, 8] ∧
    (gsmd_rx_push (gsmd_rx_push rx_two_packets (fun _ => (2, 2)) (fun _ => 0))
      (fun _ => (100, 100)) (fun _ => 0)).smd_written
      ≠ (rx_two_packets.port.read_queue.map (fun r => r.buf.take r.actual)).flatten := by
  refine ⟨by decide, by decide, by decide, by decide, by decide, by decide⟩

theorem gsmd_start_rx_loop_perm (pool : List usb_request) :
    ∀ q : Nat → Int,
      (((gsmd_start_rx_loop pool q).1 ++ (gsmd_start_rx_loop pool q).2).map (fun r => r.id)).Perm
        (pool.map (fun r => r.id)) := by
  induction pool with
  | nil => intro q; simp [gsmd_start_rx_loop]
  | cons req rest ih =>
    intro q
    unfold gsmd_start_rx_loop
    by_cases h : q 0 ≠ 0
    · simp only [if_pos h, List.append_nil, List.map_append, List.map_cons, List.map_nil]
      exact List.perm_append_singleton _ _
    · simp only [if_neg h, List.map_append, List.map_cons]
      have := ih (after q 1)
      rw [List.map_append] at this
      exact List.perm_middle.trans (List.Perm.cons _ this)

theorem gsmd_start_rx_ids (st : rx_state) (q : Nat → Int) :
    (rx_ids (gsmd_start_rx st q)).Perm (rx_ids st) := by
  unfold gsmd_start_rx
  cases hp : st.port.port_usb with
  | none => simp only; exact List.Perm.refl _
  | some g =>
    simp only [rx_ids]
    have h := gsmd_start_rx_loop_perm st.port.read_pool q
    generalize gsmd_start_rx_loop st.port.read_pool q = r at h
    rw [← Multiset.coe_eq_coe] at h ⊢
    simp only [List.map_append, ← Multiset.coe_add] at h ⊢
    rw [← h]
    abel

theorem take_req_perm (id : Nat) (l : List usb_request) :
    ∀ r l1, take_req id l = some (r, l1) →
      (l.map (fun r => r.id)).Perm ((r :: l1).map (fun r => r.id)) := by
  induction l with
  | nil => intro r l1 h; simp [take_req] at h
  | cons x rest ih =>
    intro r l1 h
    unfold take_req at h
    by_cases hx : x.id = id
    · rw [if_pos hx] at h
      simp only [Option.some.injEq, Prod.mk.injEq] at h
      obtain ⟨rfl, rfl⟩ := h
      exact List.Perm.refl _
    · rw [if_neg hx] at h
      cases ht : take_req id rest with
      | none => rw [ht] at h; simp at h
      | some p =>
        obtain ⟨y, l2⟩ := p
        rw [ht] at h
        simp only [Option.some.injEq, Prod.mk.injEq] at h
        obtain ⟨rfl, rfl⟩ := h
        have := ih y l2 ht
        simp only [List.map_cons] at this ⊢
        exact (List.Perm.cons _ this).trans (List.Perm.swap _ _ _)

theorem out_ep_complete_ids (st : rx_state) (id : Nat) (status : Int) (data : List Nat) :
    (rx_ids (out_ep_complete st id status data)).Perm (rx_ids st) := by
  unfold out_ep_complete
  cases ht : take_req id st.out_ep with
  | none => simp only; exact List.Perm.refl _
  | some p =>
    obtain ⟨req, rest⟩ := p
    have h := take_req_perm id st.out_ep req rest ht
    simp only [gsmd_read_complete, rx_ids]
    rw [← Multiset.coe_eq_coe] at h ⊢
    simp only [List.map_append, List.map_cons, List.map_nil, ← Multiset.coe_add,
      ← Multiset.cons_coe, ← Multiset.singleton_add] at h ⊢
    rw [h]
    simp only [Multiset.coe_nil, add_zero]
    abel

theorem gsmd_rx_push_loop_perm (queue : List usb_request) :
    ∀ (n : Nat) (pool : List usb_request) (w : List Nat) (smd : Nat → Int × Nat),
      (((gsmd_rx_push_loop n pool w queue smd).2.1 ++
          (gsmd_rx_push_loop n pool w queue smd).2.2.1).map (fun r => r.id)).Perm
        ((pool ++ queue).map (fun r => r.id)) := by
  induction queue with
  | nil => intro n pool w smd; simp [gsmd_rx_push_loop]
  | cons req rest ih =>
    intro n pool w smd
    unfold gsmd_rx_push_loop
    have hmid : ((req :: pool ++ rest).map (fun r => r.id)).Perm
        ((pool ++ req :: rest).map (fun r => r.id)) := by
      simp only [List.map_append, List.map_cons, List.cons_append]
      exact List.perm_middle.symm
    split
    · exact List.Perm.refl _
    · split
      · exact List.Perm.refl _
      · split
        · simp only
          split
          · exact List.Perm.refl _
          · exact (ih _ _ _ _).trans hmid
        · exact (ih _ _ _ _).trans hmid

theorem gsmd_rx_push_ids (st : rx_state) (smd : Nat → Int × Nat) (q : Nat → Int) :
    (rx_ids (gsmd_rx_push st smd q)).Perm (rx_ids st) := by
  unfold gsmd_rx_push
  refine (gsmd_start_rx_ids _ q).trans ?_
  have h := gsmd_rx_push_loop_perm st.port.read_queue st.port.n_read st.port.read_pool
    st.smd_written smd
  generalize gsmd_rx_push_loop st.port.n_read st.port.read_pool st.smd_written
    st.port.read_queue smd = r at h
  simp only [rx_ids]
  rw [← Multiset.coe_eq_coe] at h ⊢
  simp only [List.map_append, ← Multiset.coe_add] at h ⊢
  rw [add_right_comm, h]
  abel

theorem rx_step_ids (st : rx_state) (ev : rx_event) :
    (rx_ids (rx_step st ev)).Perm (rx_ids st) := by
  cases ev with
  | start_rx q => exact gsmd_start_rx_ids st q
  | read_complete id status data => exact out_ep_complete_ids st id status data
  | rx_push smd q => exact gsmd_rx_push_ids st smd q

theorem gsmd_alloc_requests_spec (size : Nat) (num : Nat) :
    ∀ (head : List usb_request) (nid : Nat) (ok : Nat → Bool),
      (∀ x ∈ head.map (fun r => r.id), x < nid) → (head.map (fun r => r.id)).Nodup →
      ((gsmd_alloc_requests size num head nid ok).2.1.map (fun r => r.id)).Nodup ∧
      (∀ x ∈ (gsmd_alloc_requests size num head nid ok).2.1.map (fun r => r.id),
        x < (gsmd_alloc_requests size num head nid ok).2.2) ∧
      (gsmd_alloc_requests size num head nid ok).2.1.length ≤ head.length + num := by
  induction num with
  | zero =>
    intro head nid ok hlt hnd
    simp only [gsmd_alloc_requests]
    exact ⟨hnd, hlt, by omega⟩
  | succ k ih =>
    intro head nid ok hlt hnd
    unfold gsmd_alloc_requests
    by_cases hok : ok 0 = true
    · rw [if_pos hok]
      have h := ih
        ({ id := nid, buf := List.replicate size 0, length := size, actual := 0, status := 0 }
          :: head) (nid + 1) (after ok 1)
        (by
          intro x hx
          simp only [List.map_cons, List.mem_cons] at hx
          rcases hx with rfl | hx
          · omega
          · have := hlt x hx; omega)
        (by
          simp only [List.map_cons, List.nodup_cons]
          refine ⟨?_, hnd⟩
          intro hmem
          have := hlt nid hmem
          omega)
      refine ⟨h.1, h.2.1, ?_⟩
      have := h.2.2
      simp only [List.length_cons] at this
      omega
    · rw [if_neg hok]
      exact ⟨hnd, hlt, by simp⟩

theorem gsmd_start_io_ids (portno gser : Nat) (ok_out ok_in : Nat → Bool) (q : Nat → Int) :
    (rx_ids (gsmd_start_io (rx_state_connected portno gser) ok_out ok_in q)).Nodup ∧
    (rx_ids (gsmd_start_io (rx_state_connected portno gser) ok_out ok_in q)).length
      ≤ RX_QUEUE_SIZE := by
  have ha := gsmd_alloc_requests_spec RX_BUF_SIZE RX_QUEUE_SIZE [] 0 ok_out
    (by simp) (by simp)
  unfold gsmd_start_io
  simp only [rx_state_connected, gsmd_port_alloc]
  generalize gsmd_alloc_requests RX_BUF_SIZE RX_QUEUE_SIZE [] 0 ok_out = a at ha
  obtain ⟨hnd, _, hlen⟩ := ha
  simp only [List.length_nil, zero_add] at hlen
  split
  · simp only [rx_ids, List.append_nil, List.length_map]
    exact ⟨hnd, hlen⟩
  · split
    · simp [rx_ids, RX_QUEUE_SIZE]
    · have hp := gsmd_start_rx_ids
        { port := { port_num := portno, n_read := 0, read_pool := a.2.1, read_queue := [],
                    write_pool := (gsmd_alloc_requests TX_BUF_SIZE TX_QUEUE_SIZE [] a.2.2 ok_in).2.1,
                    port_usb := some gser, push_queued := false, pull_queued := false,
                    connect_work_queued := false, cbits_to_modem := 0, cbits_to_laptop := 0 },
          out_ep := [], smd_written := [],
          next_id := (gsmd_alloc_requests TX_BUF_SIZE TX_QUEUE_SIZE [] a.2.2 ok_in).2.2 } q
      refine ⟨hp.nodup_iff.mpr ?_, ?_⟩
      · simp only [rx_ids, List.append_nil]
        exact hnd
      · rw [hp.length_eq]
        simp only [rx_ids, List.append_nil, List.length_map]
        exact hlen

/-- C15: each of `gsmd_start_rx`, `gsmd_read_complete` (run by the OUT endpoint for a
request it holds) and `gsmd_rx_push` only moves requests between `read_pool`, the OUT
endpoint and `read_queue`: the requests held in the three places are the same before
and after, so their number is unchanged; and after `gsmd_start_io` on a newly connected
port, whatever events follow, every request is in exactly one of the three places and
there are at most `RX_QUEUE_SIZE` of them. -/
theorem rx_pool_conserved (st : rx_state) (ev : rx_event) (portno gser : Nat)
    (ok_out ok_in : Nat → Bool) (q : Nat → Int) (evs : List rx_event) :
    (rx_ids (rx_step st ev)).Perm (rx_ids st) ∧
    (rx_ids (rx_step st ev)).length = (rx_ids st).length ∧
    (rx_ids (evs.foldl rx_step
      (gsmd_start_io (rx_state_connected portno gser) ok_out ok_in q))).Nodup ∧
    (rx_ids (evs.foldl rx_step
      (gsmd_start_io (rx_state_connected portno gser) ok_out ok_in q))).length
      ≤ RX_QUEUE_SIZE := by
  refine ⟨rx_step_ids st ev, (rx_step_ids st ev).length_eq, ?_⟩
  have key : ∀ (l : List rx_event) (s : rx_state),
      ((rx_ids s).Nodup ∧ (rx_ids s).length ≤ RX_QUEUE_SIZE) →
      ((rx_ids (l.foldl rx_step s)).Nodup ∧
        (rx_ids (l.foldl rx_step s)).length ≤ RX_QUEUE_SIZE) := by
    intro l
    induction l with
    | nil => intro s hs; exact hs
    | cons e rest ih =>
      intro s hs
      apply ih
      have hp := rx_step_ids s e
      exact ⟨hp.nodup_iff.mpr hs.1, by rw [hp.length_eq]; exact hs.2⟩
  exact key evs _ (gsmd_start_io_ids portno gser ok_out ok_in q)

end USmd
